import Mathlib

/-!
Verification of the gps-stats track-analysis engine (Go sources in
`internal/stats`).  The Go code is shallowly embedded: `float64`
quantities (coordinates, timestamps in seconds, distances in meters,
speeds) are modelled as exact rationals `ℚ`; byte streams as `List ℕ`;
Go slices as Lean lists.  The geometric distance function
(`distSimple`, which uses `sqrt` and `cos`) is kept abstract as a
parameter `dist : Point → Point → ℚ` of every definition that calls it;
concrete runs instantiate it with `distSimpleEquator`, which is exactly
`distSimple` evaluated at latitude 0 (there `dLatM = 0`, `cos 0 = 1` and
`√(dLonM²) = |dLonM|`, so the value is rational).
-/

namespace GpsStats

/-- `UnitsFlag` from stats.go: which speed units are printed. -/
inductive UnitsFlag
  | ms
  | kmh
  | kts
  deriving DecidableEq, Repr

/-- `TackSide` from stats.go: riding side, starboard or port. -/
inductive TackSide
  | unknown
  | starboard
  | port
  deriving DecidableEq, Repr

/-- `TurnType` from stats.go: a turn is a jibe or a tack. -/
inductive TurnType
  | unknown
  | jibe
  | tack
  deriving DecidableEq, Repr

/-- `TrackType` from stats.go: type of a track file. -/
inductive TrackType
  | sbn
  | gpx
  | unknownType
  deriving DecidableEq, Repr

/-- `Point` from stats.go.  Fields not used by any verified routine
(`isPoint`, `valid`, `validCheck`, `ele`, `speed`, `hr`) are omitted.
`lat`/`lon` are decimal degrees, `ts` is the timestamp in seconds,
`heading` is degrees from north with `-1` meaning undefined. -/
structure Point where
  lat : ℚ := 0
  lon : ℚ := 0
  ts : ℚ := 0
  usedFor10s : Bool := false
  globalIdx : ℕ := 0
  tackSide : TackSide := .unknown
  heading : ℚ := -1
  deriving DecidableEq, Repr

instance : Inhabited Point := ⟨{}⟩

/-- `Track` from stats.go: a window of points with running sums. -/
structure Track where
  ps : List Point := []
  duration : ℚ := 0
  distance : ℚ := 0
  speed : ℚ := 0
  speedUnits : UnitsFlag := .ms
  valid : Bool := false
  deriving DecidableEq, Repr

/-- `Track{speedUnits: u}` — the fresh track the Go code restarts from. -/
def emptyTrack (u : UnitsFlag) : Track := { speedUnits := u }

/-- `mPerSecToKts` constant from stats.go. -/
def mPerSecToKts : ℚ := 194384 / 100000

/-- `mPerSecToKmh` constant from stats.go. -/
def mPerSecToKmh : ℚ := 36 / 10

/-- `MsToUnits` from stats.go: convert m/s to the requested units. -/
def MsToUnits (speedMs : ℚ) (speedUnits : UnitsFlag) : ℚ :=
  match speedUnits with
  | .ms => speedMs
  | .kmh => speedMs * mPerSecToKmh
  | .kts => speedMs * mPerSecToKts

/-- `distSimple` from stats.go evaluated at `lat1 = lat2 = 0` (points on
the equator): `dLatM = 0`, `cos 0 = 1`, and `√(dLonM²) = |dLonM|`, so
`dist = |(lon2 - lon1) / 360 * earthCircEquator|`, an exact rational. -/
def distSimpleEquator (p1 p2 : Point) : ℚ :=
  |(p2.lon - p1.lon) / 360 * 40075017|

/-- `speed` from stats.go: speed of moving between two points
(`ℚ` division by a zero time difference yields 0 in this model). -/
def speedBetween (dist : Point → Point → ℚ) (speedUnits : UnitsFlag)
    (p1 p2 : Point) : ℚ :=
  MsToUnits (dist p1 p2 / (p2.ts - p1.ts)) speedUnits

/-- Sum of consecutive-pair distances over a point list (the quantity the
Go code maintains incrementally in `Track.distance`). -/
def pathSum (dist : Point → Point → ℚ) : List Point → ℚ
  | p :: q :: rest => dist p q + pathSum dist (q :: rest)
  | _ => 0

/-- Timestamp span of a point list: last minus first, 0 when empty (the
quantity the Go code maintains incrementally in `Track.duration`). -/
def spanTs : List Point → ℚ
  | [] => 0
  | p :: rest => (List.getLast (p :: rest) (by simp)).ts - p.ts

/-! ## Format autodetection (`determineType`, stats.go) -/

/-- Go slice expression `b[0:n]` on the 100-byte `bufio` peek buffer:
bytes past the end of the stream read as the buffer's zero fill. -/
def sliceZero (bs : List ℕ) (n : ℕ) : List ℕ :=
  (bs ++ List.replicate n 0).take n

/-- `determineType` from stats.go: peek at up to 100 leading bytes,
classify as SBN (`A0 A2 00 22` magic), GPX (`<?xml ` prefix) or unknown. -/
def determineType (bs : List ℕ) : TrackType :=
  let startBytes := bs.take 100
  if 4 ≤ startBytes.length then
    if startBytes.take 4 = [160, 162, 0, 34] then .sbn
    else if sliceZero startBytes 6 = [60, 63, 120, 109, 108, 32] then .gpx
    else .unknownType
  else .unknownType

/-! ## SBN record reader (`readPointSbn`, sbn.go) -/

/-- `intFrom2ub` from stats.go: two unsigned bytes, big-endian. -/
def intFrom2ub (b2 : List ℕ) : ℕ :=
  b2.getD 0 0 * 256 + b2.getD 1 0

/-- `intFrom4sb` from stats.go: four "signed" bytes — the source strips
the top bit instead of two's-complement decoding, so the result is
always the nonnegative big-endian value of the low 31 bits. -/
def intFrom4sb (b4 : List ℕ) : ℤ :=
  if 128 ≤ b4.getD 0 0 then
    (b4.getD 0 0 % 128) * 256 * 256 * 256 + b4.getD 1 0 * 256 * 256 +
      b4.getD 2 0 * 256 + b4.getD 3 0
  else
    b4.getD 0 0 * 256 * 256 * 256 + b4.getD 1 0 * 256 * 256 +
      b4.getD 2 0 * 256 + b4.getD 3 0

/-- Outcome of `readPointSbn` on one record: a decode error (non-nil Go
error), a silent skip (`Point{}` with `isPoint == false` and nil error),
a decoded position (`isPoint == true`), or a Go runtime panic (index out
of range on a body shorter than the accessed offsets). -/
inductive SbnResult
  | err (msg : String)
  | skip
  | point (lat lon : ℚ)
  | panicked
  deriving DecidableEq, Repr

/-- `readPointSbn` from sbn.go, reading one record from the front of a
byte stream.  Timestamp assembly (`time.Date`) is not modelled; the
latitude/longitude decoding and every check and its order are.  Note the
order at the end: the `body[0] != 0x29` skip happens before the checksum
comparison and the nav-valid check happens after lat/lon decoding. -/
def readPointSbn (bs : List ℕ) : SbnResult :=
  if bs.length < 4 then .err "header read" else
  let h := bs.take 4
  let bodyLen := h.getD 3 0
  let rest := bs.drop 4
  if rest.length < bodyLen then .err "body read" else
  let body := rest.take bodyLen
  let rest2 := rest.drop bodyLen
  if rest2.length < 2 then .err "checksum read" else
  let checksumInt := intFrom2ub (rest2.take 2)
  let rest3 := rest2.drop 2
  if rest3.length < 2 then .err "end sequence read" else
  if rest3.take 2 ≠ [176, 179] then .err "Invalid end sequence of bytes" else
  let csCalc := body.foldl (fun acc b => (acc + b) % 32768) 0
  match body.head? with
  | none => .panicked
  | some b0 =>
    if b0 ≠ 41 then .skip
    else if checksumInt ≠ csCalc then .err "Invalid checksum"
    else if body.length < 31 then .panicked
    else
      let navValid0 := body.getD 1 0
      let navValid1 := body.getD 2 0
      let lat := (intFrom4sb ((body.drop 23).take 4) : ℚ) / 10000000
      let lon := (intFrom4sb ((body.drop 27).take 4) : ℚ) / 10000000
      if navValid0 ≠ 0 ∨ navValid1 ≠ 0 then .err "Nav Valid != 0"
      else .point lat lon

/-! ## Wind-direction auto-detection: heading histogram
(`autoDetectWindDir`, stats.go, step 2) -/

/-- Go `int(q)`: float-to-int conversion truncates toward zero. -/
def goTrunc (q : ℚ) : ℤ :=
  if 0 ≤ q then ⌊q⌋ else -⌊-q⌋

/-- `int(p.heading/10) % 36` from `autoDetectWindDir`.  Lean's `%` on
`ℤ` agrees with Go's for the nonnegative dividends produced by headings
`≥ -10`, which covers every heading the analyzer stores (`-1` or a value
in `[0, 360)`). -/
def headingBin (h : ℚ) : ℤ :=
  goTrunc (h / 10) % 36

/-- The histogram-filling loop of `autoDetectWindDir`:
`bins := make([]int, 36); for _, p := range ps { bins[bin]++ }`. -/
def buildBins (ps : List Point) : List ℕ :=
  ps.foldl
    (fun bins p =>
      let bin := (headingBin p.heading).toNat
      bins.set bin (bins.getD bin 0 + 1))
    (List.replicate 36 0)

/-! ## Window engine (`Track.reCalculate`, `Track.addPointMinDuration*`,
stats.go) -/

/-- `Track.reCalculate` from stats.go: recompute the running sums and the
speed from the point list. -/
def reCalculate (dist : Point → Point → ℚ) (t : Track) : Track :=
  let dur := spanTs t.ps
  let dst := pathSum dist t.ps
  { t with
    duration := dur
    distance := dst
    speed := if dur > 0 then MsToUnits (dst / dur) t.speedUnits else 0 }

/-- The left-shrink loop of `addPointMinDurationUnused10s`
(`for durTest >= minDuration && len(t.ps) > 2 { ... }`) on the loop
state `(ps, duration, distance)`. -/
def shrinkDurGo (dist : Point → Point → ℚ) (minDuration : ℚ) :
    List Point → ℚ → ℚ → List Point × ℚ × ℚ
  | p0 :: p1 :: p2 :: rest, duration, distance =>
    let durTest := duration - (p1.ts - p0.ts)
    if durTest ≥ minDuration then
      shrinkDurGo dist minDuration (p1 :: p2 :: rest) durTest
        (distance - dist p0 p1)
    else (p0 :: p1 :: p2 :: rest, duration, distance)
  | ps, duration, distance => (ps, duration, distance)

/-- The left-shrink loop of `addPointMinDurationUnused10s`, acting on the
track. -/
def shrinkDur (dist : Point → Point → ℚ) (minDuration : ℚ) (t : Track) :
    Track :=
  let r := shrinkDurGo dist minDuration t.ps t.duration t.distance
  { t with ps := r.1, duration := r.2.1, distance := r.2.2 }

/-- `Track.addPointMinDurationUnused10s` from stats.go: restart on a used
point (when `unused10sOnly`), append `p`, bump the running sums, set
`valid`, then shrink from the left while the window still covers
`minDuration`. -/
def addPointMinDurationUnused10s (dist : Point → Point → ℚ) (t : Track)
    (p : Point) (minDuration : ℚ) (unused10sOnly : Bool) : Track :=
  if unused10sOnly ∧ p.usedFor10s then { speedUnits := t.speedUnits }
  else
    match hps : t.ps with
    | [] => { t with ps := [p] }
    | q :: qs =>
      let prev := List.getLast (q :: qs) (by simp)
      let t1 : Track :=
        { t with
          ps := t.ps ++ [p]
          duration := t.duration + (p.ts - prev.ts)
          distance := t.distance + dist prev p }
      let t2 : Track :=
        { t1 with
          speed := MsToUnits (t1.distance / t1.duration) t1.speedUnits
          valid := decide (t1.duration ≥ minDuration) }
      if t2.duration > minDuration ∧ t2.ps.length > 2 then
        let t3 := shrinkDur dist minDuration t2
        { t3 with speed := MsToUnits (t3.distance / t3.duration) t3.speedUnits }
      else t2

/-- `Track.addPointMinDuration` from stats.go. -/
def addPointMinDuration (dist : Point → Point → ℚ) (t : Track) (p : Point)
    (minDuration : ℚ) : Track :=
  addPointMinDurationUnused10s dist t p minDuration false

/-- A finite sequence of appends through the min-duration window
operation, each with its `unused10sOnly` flag, starting from the fresh
track (as every caller in `CalculateStats` does). -/
def runMinDuration (dist : Point → Point → ℚ) (speedUnits : UnitsFlag)
    (minDuration : ℚ) (apps : List (Point × Bool)) : Track :=
  apps.foldl
    (fun t pb => addPointMinDurationUnused10s dist t pb.1 minDuration pb.2)
    (emptyTrack speedUnits)

/-! ## Turn engine (`Track.addPointTurnMaxDistance`,
`Track.addPointTurn500`, `findMaxTurnSubtrack`, stats.go) -/

/-- Step 1's while loop in `addPointTurnMaxDistance` on the loop state
`(ps, duration, distance)`: pop from the front while the track is longer
than `maxDistance`, the front point has a known tack side, and more than
two points remain. -/
def shrinkTurnGo (dist : Point → Point → ℚ) (maxDistance : ℚ) :
    List Point → ℚ → ℚ → List Point × ℚ × ℚ
  | p0 :: p1 :: p2 :: rest, duration, distance =>
    let distTest := distance - dist p0 p1
    if distTest > maxDistance ∧ p0.tackSide ≠ TackSide.unknown then
      shrinkTurnGo dist maxDistance (p1 :: p2 :: rest)
        (duration - (p1.ts - p0.ts)) distTest
    else (p0 :: p1 :: p2 :: rest, duration, distance)
  | ps, duration, distance => (ps, duration, distance)

/-- Step 1's while loop in `addPointTurnMaxDistance`, acting on the
track. -/
def shrinkTurn (dist : Point → Point → ℚ) (maxDistance : ℚ) (t : Track) :
    Track :=
  let r := shrinkTurnGo dist maxDistance t.ps t.duration t.distance
  { t with ps := r.1, duration := r.2.1, distance := r.2.2 }

/-- The unconditional front removal that follows step 1's loop in
`addPointTurnMaxDistance` (executed whenever the loop was entered). -/
def popFront (dist : Point → Point → ℚ) (t : Track) : Track :=
  match t.ps with
  | p0 :: p1 :: rest =>
    { t with
      distance := t.distance - dist p0 p1
      duration := t.duration - (p1.ts - p0.ts)
      ps := p1 :: rest }
  | _ => t

/-- Step 2 of `addPointTurnMaxDistance`: drop trailing points with an
unknown tack side while more than two points remain.  The loop runs at
most `ps.length` times, so that fuel makes the recursion structural
without changing the computed value. -/
def dropUnknownTailGo : ℕ → List Point → List Point
  | fuel + 1, ps =>
    if ps.length > 2 then
      match ps.getLast? with
      | some lastP =>
        if lastP.tackSide = TackSide.unknown then
          dropUnknownTailGo fuel ps.dropLast
        else ps
      | none => ps
    else ps
  | 0, ps => ps

/-- Step 2 of `addPointTurnMaxDistance`, acting on the track.  The
running sums are NOT adjusted (mirroring the source). -/
def dropUnknownTail (t : Track) : Track :=
  { t with ps := dropUnknownTailGo t.ps.length t.ps }

/-- Step 4 of `addPointTurnMaxDistance`: scan left-trim indices `i`
(suffixes) looking for a gate.  `sd` is the running `subtrackDistance`;
the result is the suffix `t.ps[i:]` of the first gate found. -/
def gateScan (dist : Point → Point → ℚ) (minDistance gateSize : ℚ)
    (firstSide : TackSide) (sd : ℚ) (ps : List Point) :
    Option (List Point) :=
  match ps with
  | p0 :: p1 :: p2 :: rest =>
    if sd < minDistance then none
    else if p0.tackSide ≠ firstSide then none
    else if p0.tackSide = TackSide.unknown then
      gateScan dist minDistance gateSize firstSide (sd - dist p0 p1)
        (p1 :: p2 :: rest)
    else
      let lastP := List.getLast (p0 :: p1 :: p2 :: rest) (by simp)
      if dist p0 lastP ≤ gateSize ∧ sd ≥ minDistance then
        some (p0 :: p1 :: p2 :: rest)
      else
        gateScan dist minDistance gateSize firstSide (sd - dist p0 p1)
          (p1 :: p2 :: rest)
  | _ => none

/-- Steps 2–4 of `addPointTurnMaxDistance` on the track left by step 1:
read the last point's tack side (after dropping unknown-side tail
points the caller already performed), require a direction change
(step 3), then search for a gate (step 4). -/
def turnGatePhase (dist : Point → Point → ℚ)
    (minDistance gateSize : ℚ) (firstPointTackSide : TackSide)
    (speedUnits : UnitsFlag) (t3 : Track) : Track × Track :=
  match t3.ps.getLast? with
  | none => (t3, emptyTrack speedUnits)
  | some lastP =>
    if lastP.tackSide ≠ TackSide.unknown ∧
        lastP.tackSide ≠ firstPointTackSide then
      match gateScan dist minDistance gateSize firstPointTackSide
          t3.distance t3.ps with
      | some sub =>
        (t3, reCalculate dist
          { ps := sub, valid := true, speedUnits := speedUnits })
      | none => (t3, emptyTrack speedUnits)
    else (t3, emptyTrack speedUnits)

/-- `Track.addPointTurnMaxDistance` from stats.go: append a point for the
turn calculation; keep the track at most `maxDistance` long (step 1 with
its unconditional extra removal), drop unknown-side tail points
(step 2), then hand over to `turnGatePhase` (steps 3–4).  Returns the
updated track and the best (valid) subtrack or a fresh invalid one. -/
def addPointTurnMaxDistance (dist : Point → Point → ℚ) (t : Track)
    (p : Point) (maxDistance minDistance gateSize : ℚ) : Track × Track :=
  match t.ps with
  | [] =>
    if p.heading < 0 then (t, emptyTrack t.speedUnits)
    else ({ t with ps := [p] }, emptyTrack t.speedUnits)
  | first :: restPs =>
    let firstPointTackSide := first.tackSide
    let prev := List.getLast (first :: restPs) (by simp)
    let t1 : Track :=
      { t with
        ps := t.ps ++ [p]
        duration := t.duration + (p.ts - prev.ts)
        distance := t.distance + dist prev p }
    let t2 :=
      if t1.distance > maxDistance ∧ t1.ps.length > 2 then
        popFront dist (shrinkTurn dist maxDistance t1)
      else t1
    turnGatePhase dist minDistance gateSize firstPointTackSide
      t.speedUnits (dropUnknownTail t2)

/-- `Track.addPointTurn500` from stats.go: the Alpha/Delta 500
instantiation — `maxDistance = 500`, `minDistance = 10`,
`gateSize = 50`. -/
def addPointTurn500 (dist : Point → Point → ℚ) (t : Track) (p : Point) :
    Track × Track :=
  addPointTurnMaxDistance dist t p 500 10 50

/-- `findMaxTurnSubtrack` from stats.go: feed a single-turn track's
points through `addPointTurn500`, keeping the fastest valid subtrack. -/
def findMaxTurnSubtrack (dist : Point → Point → ℚ) (turnTrack : Track)
    (speedUnits : UnitsFlag) : Track :=
  (turnTrack.ps.foldl
    (fun acc p =>
      let step := addPointTurn500 dist acc.1 p
      (step.1,
        if step.2.valid ∧ step.2.speed > acc.2.speed then step.2 else acc.2))
    (emptyTrack speedUnits, emptyTrack speedUnits)).2

/-! ## Top-5 non-overlapping 10 s selector (the `5 x 10 secs` loop of
`CalculateStats`, stats.go) -/

/-- One scan of the point sequence with the unused-10s window: the inner
`for i := 1; ...` loop of the selector, including the initial
`addPointMinDurationUnused10s(ps[0], 10, true)` that is not followed by a
best-track check.  Returns the best (fastest valid) track seen. -/
def scan10s (dist : Point → Point → ℚ) (speedUnits : UnitsFlag)
    (ps : List Point) : Track :=
  match ps with
  | [] => emptyTrack speedUnits
  | p0 :: rest =>
    let t0 := addPointMinDurationUnused10s dist (emptyTrack speedUnits) p0 10 true
    (rest.foldl
      (fun acc p =>
        let t := addPointMinDurationUnused10s dist acc.1 p 10 true
        (t, if t.valid ∧ acc.2.speed < t.speed then t else acc.2))
      (t0, emptyTrack speedUnits)).2

/-- The marking loop after each pick:
`for i { ps[track.ps[i].globalIdx].usedFor10s = true }`.  The update is
at index `globalIdx` (not at the point's own position), and a
`globalIdx` outside the sequence is a Go index-out-of-range panic,
modelled as `none`. -/
def markUsed (ps : List Point) (track : Track) : Option (List Point) :=
  track.ps.foldl
    (fun acc p =>
      match acc with
      | none => none
      | some l =>
        if p.globalIdx < l.length then
          some (l.set p.globalIdx
            { l.getD p.globalIdx default with usedFor10s := true })
        else none)
    (some ps)

/-- The marking loop on a panic-free execution (every `globalIdx` in
range): the plain sequence of `List.set` updates `markUsed` performs. -/
def markUsedRun (ps : List Point) (track : Track) : List Point :=
  track.ps.foldl
    (fun acc p =>
      acc.set p.globalIdx
        { acc.getD p.globalIdx default with usedFor10s := true })
    ps

/-- The outer `for track5x10sIdx := 0; ... < 5` loop of `CalculateStats`:
pick the best unused window, mark its points used, repeat.  Returns the
picked tracks in pick order together with the final marked sequence, or
`none` when the marking loop panics. -/
def pick5x10sGo (dist : Point → Point → ℚ) (speedUnits : UnitsFlag) :
    ℕ → List Point → List Track → Option (List Track × List Point)
  | 0, ps, acc => some (acc.reverse, ps)
  | k + 1, ps, acc =>
    let best := scan10s dist speedUnits ps
    match markUsed ps best with
    | some psMarked => pick5x10sGo dist speedUnits k psMarked (best :: acc)
    | none => none

/-- The five 10-second tracks stored in `Stats.speed5x10s` (`none` when
the marking loop panics). -/
def pick5x10s (dist : Point → Point → ℚ) (speedUnits : UnitsFlag)
    (ps : List Point) : Option (List Track) :=
  (pick5x10sGo dist speedUnits 5 ps []).map Prod.fst

/-! ## Cleanup (`CleanUp`, stats.go) -/

/-- The inner gap-scanning loop of `CleanUp` stage A:
`for idxNext < psLen-1 && dt > 1 { ... }`; returns the final `idxLast`.
`idxNext` grows by one per iteration and is bounded by `ps.length`, so
fuel `ps.length` makes the recursion structural without changing the
computed value. -/
def stageAGap (ps : List Point) : ℕ → ℕ → ℕ → ℚ → ℕ
  | fuel + 1, idxNext, idxLast, dt =>
    if idxNext < ps.length - 1 ∧ dt > 1 then
      stageAGap ps fuel (idxNext + 1) idxNext
        ((ps.getD (idxNext + 1) default).ts - (ps.getD idxNext default).ts)
    else idxLast
  | 0, _, idxLast, _ => idxLast

/-- The body of `CleanUp` stage A's outer loop, as a function of the
running index `idxPs` (the list it returns is what the loop appends to
`psCleaned` from that index on).  `idxPs` grows by at least one per
iteration and the loop stops at `ps.length`, so fuel `ps.length` makes
the recursion structural without changing the computed value. -/
def stageAGo (ps : List Point) : ℕ → ℕ → List Point
  | fuel + 1, idxPs =>
    if idxPs < ps.length then
      let pCurr := ps.getD idxPs default
      if idxPs < ps.length - 1 then
        let pNext := ps.getD (idxPs + 1) default
        if pCurr.ts = pNext.ts then
          stageAGo ps fuel (idxPs + 2)
        else
          let dt := pNext.ts - pCurr.ts
          if dt > 1 then
            stageAGo ps fuel (stageAGap ps ps.length (idxPs + 1) (idxPs + 1) dt + 3)
          else
            pCurr :: stageAGo ps fuel (idxPs + 1)
      else pCurr :: stageAGo ps fuel (idxPs + 1)
    else []
  | 0, _ => []

/-- `CleanUp` stage A (temporal cleanup): seed with the first point, then
run the outer loop from index 1. -/
def stageA (ps : List Point) : List Point :=
  match ps with
  | [] => []
  | p0 :: _ => p0 :: stageAGo ps ps.length 1

/-- Default speed-outlier threshold: the CLI passes 5 kts converted to
the selected unit; `CleanUp` takes it as the `deltaSpeedMax` argument. -/
def defaultDeltaSpeedMax : ℚ := 5

/-- The speed-outlier loop of `CleanUp` stage B
(`for idxPs := 2; idxPs < len(psCurr)-1; idxPs++`).  `lastAccepted` is
`res[idxRes]`, `idxRes` the index the next accepted point receives; an
accepted point gets `globalIdx = idxRes` (the source mutates the freshly
appended copy).  `idxPs` grows by one per iteration up to
`psCurr.length - 1`, so fuel `psCurr.length` makes the recursion
structural without changing the computed value. -/
def stageBGo (dist : Point → Point → ℚ) (speedUnits : UnitsFlag)
    (deltaSpeedMax : ℚ) (psCurr : List Point) :
    ℕ → ℕ → Point → ℚ → ℕ → List Point
  | fuel + 1, idxPs, lastAccepted, speedPrev, idxRes =>
    if idxPs < psCurr.length - 1 then
      let pC := psCurr.getD idxPs default
      let pN := psCurr.getD (idxPs + 1) default
      let speedCur := speedBetween dist speedUnits lastAccepted pC
      let speedNext1 := speedBetween dist speedUnits pC pN
      let speed0Delta := speedCur - speedPrev
      let speed1Delta := speedNext1 - speedCur
      let diffDelta1 := speed0Delta - speed1Delta
      if diffDelta1 < deltaSpeedMax ∨ speed0Delta < 0 then
        let accepted : Point := { pC with globalIdx := idxRes + 1 }
        accepted ::
          stageBGo dist speedUnits deltaSpeedMax psCurr fuel (idxPs + 1)
            accepted speedCur (idxRes + 1)
      else
        stageBGo dist speedUnits deltaSpeedMax psCurr fuel (idxPs + 1)
          lastAccepted speedPrev idxRes
    else []
  | 0, _, _, _, _ => []

/-- `CleanUp` from stats.go.  Returns `none` exactly when the Go code
panics: stage A can shrink the sequence below two points, after which
stage B's unconditional `psCurr[1]` access is out of range. -/
def CleanUp (dist : Point → Point → ℚ) (points : List Point)
    (deltaSpeedMax : ℚ) (speedUnits : UnitsFlag) : Option (List Point) :=
  if points.length > 1 then
    let psCurr := stageA points
    match psCurr with
    | p0 :: p1 :: _ =>
      some (p0 :: p1 ::
        stageBGo dist speedUnits deltaSpeedMax psCurr psCurr.length 2 p1
          (speedBetween dist speedUnits p0 p1) 1)
    | _ => none
  else some []

/-- Erase the `globalIdx` field (stage B reassigns it on accepted
points); used to compare cleanup outputs up to re-indexing. -/
def stripIdx (p : Point) : Point := { p with globalIdx := 0 }

/-! ## Concrete fixtures (all on the equator, so `distSimpleEquator` is
exactly the source's `distSimple`) -/

/-- A point on the equator `x` meters east of the origin (longitude
`x·360/40075017` degrees), with the given timestamp, global index, tack
side and heading. -/
def eqPoint (x ts : ℚ) (g : ℕ) (side : TackSide) (h : ℚ) : Point :=
  { lon := x * 360 / 40075017, ts := ts, globalIdx := g, tackSide := side,
    heading := h }

/-- An out-and-back turn 60 m long: east 40 m on starboard, back 20 m on
port.  Every tack side is known. -/
def alphaExampleTrack : Track :=
  { ps :=
      [eqPoint 0 0 0 .starboard 90, eqPoint 20 10 1 .starboard 90,
       eqPoint 40 20 2 .starboard 90, eqPoint 20 30 3 .port 270,
       eqPoint 0 60 4 .port 270]
    speedUnits := .ms }

/-- A single-turn track containing an unknown-side point: starboard at
0 m and 1 m, an unknown-side point at 9 m, then port at 2 m.  Appending
the unknown point makes step 2 of `addPointTurnMaxDistance` truncate it
from the tail without adjusting the running distance, so the gate scan
later tests a stale distance of 10 m while the kept points span only
2 m. -/
def mixedSideExampleTrack : Track :=
  { ps :=
      [eqPoint 0 0 0 .starboard 90, eqPoint 1 1 1 .starboard 90,
       eqPoint 9 2 2 .unknown (-1), eqPoint 2 3 3 .port 270]
    speedUnits := .ms }

/-- A stationary point with only a timestamp and a global index. -/
def tsPoint (ts : ℚ) (g : ℕ) : Point := { ts := ts, globalIdx := g }

/-- A raw 18-point equator sequence for the selector: a duplicate
timestamp at seconds 1 (raw indices 1 and 2), an unexamined 10 s jump
from second 0 to second 11 (stage A's duplicate skip advances past the
pair without ever comparing seconds 1 and 11), a fast 4 m/s stretch
from second 12 to second 22 and a slow 1 m/s tail. -/
def overlapRawPoints : List Point :=
  [eqPoint 0 0 0 .unknown (-1), eqPoint 0 1 1 .unknown (-1),
   eqPoint 0 1 2 .unknown (-1), eqPoint 1 11 3 .unknown (-1),
   eqPoint 2 12 4 .unknown (-1), eqPoint 6 13 5 .unknown (-1),
   eqPoint 10 14 6 .unknown (-1), eqPoint 14 15 7 .unknown (-1),
   eqPoint 18 16 8 .unknown (-1), eqPoint 22 17 9 .unknown (-1),
   eqPoint 26 18 10 .unknown (-1), eqPoint 30 19 11 .unknown (-1),
   eqPoint 34 20 12 .unknown (-1), eqPoint 38 21 13 .unknown (-1),
   eqPoint 42 22 14 .unknown (-1), eqPoint 43 23 15 .unknown (-1),
   eqPoint 44 24 16 .unknown (-1), eqPoint 45 25 17 .unknown (-1)]

/-- `CleanUp` of `overlapRawPoints`: the stage-B seed at position 1
keeps its raw global index 3, which collides with the reassigned
global index 3 of the point at position 3. -/
def overlapCleanedPoints : List Point :=
  [eqPoint 0 0 0 .unknown (-1), eqPoint 1 11 3 .unknown (-1),
   eqPoint 2 12 2 .unknown (-1), eqPoint 6 13 3 .unknown (-1),
   eqPoint 10 14 4 .unknown (-1), eqPoint 14 15 5 .unknown (-1),
   eqPoint 18 16 6 .unknown (-1), eqPoint 22 17 7 .unknown (-1),
   eqPoint 26 18 8 .unknown (-1), eqPoint 30 19 9 .unknown (-1),
   eqPoint 34 20 10 .unknown (-1), eqPoint 38 21 11 .unknown (-1),
   eqPoint 42 22 12 .unknown (-1), eqPoint 43 23 13 .unknown (-1),
   eqPoint 44 24 14 .unknown (-1)]

/-- The five tracks the selector picks on `overlapCleanedPoints`: the
4 m/s window over positions 2–12 (which contains the position-3 point
with global index 3), then — because marking that pick flags position 3
itself, never position 1 — the 11 s window over positions 0–1, whose
second point is the seed still carrying global index 3. -/
def overlapPicks : List Track :=
  [{ ps := (overlapCleanedPoints.drop 2).take 11, duration := 10,
     distance := 40, speed := 4, speedUnits := .ms, valid := true },
   { ps := overlapCleanedPoints.take 2, duration := 11, distance := 1,
     speed := 1 / 11, speedUnits := .ms, valid := true },
   emptyTrack .ms, emptyTrack .ms, emptyTrack .ms]

/-- The raw 1 Hz sequence from the `CleanUp` comment: seconds
43,44,45,46,48,50,51,52,53,54 (47 and 49 missing), all at one spot. -/
def gapExamplePoints : List Point :=
  [tsPoint 43 0, tsPoint 44 1, tsPoint 45 2, tsPoint 46 3, tsPoint 48 4,
   tsPoint 50 5, tsPoint 51 6, tsPoint 52 7, tsPoint 53 8, tsPoint 54 9]

/-- A raw sequence whose second and third points share a timestamp, so
stage A drops them and the stage-B seed at position 1 keeps its raw
global index 3. -/
def dupTsExamplePoints : List Point :=
  [tsPoint 10 0, tsPoint 11 1, tsPoint 11 2, tsPoint 12 3, tsPoint 13 4,
   tsPoint 14 5]

/-- A single raw point. -/
def singleExamplePoint : Point := tsPoint 5 0

/-- `CleanUp` of `dupTsExamplePoints`: the stage-B seed at position 1 is
the stage-A survivor with raw global index 3. -/
def dupTsCleanedExample : List Point :=
  [tsPoint 10 0, tsPoint 12 3, { tsPoint 13 4 with globalIdx := 2 }]

/-- `CleanUp` of `gapExamplePoints` (one application). -/
def gapCleanedOnce : List Point :=
  [tsPoint 43 0, tsPoint 44 1, { tsPoint 45 2 with globalIdx := 2 },
   { tsPoint 53 8 with globalIdx := 3 }]

/-- `CleanUp` of `gapCleanedOnce`: the 45 → 53 gap that survived the
first pass triggers stage A again, so only two points remain. -/
def gapCleanedTwice : List Point :=
  [tsPoint 43 0, tsPoint 44 1]

/-- A well-framed SBN record whose body starts with `0x00` (not the
position marker `0x29`) and whose stored checksum `0xFFFF` is wrong
(the body sums to 0). -/
def skipExampleRecord : List ℕ :=
  [160, 162, 0, 2] ++ [0, 0] ++ [255, 255] ++ [176, 179]

/-! ## Claim C6: format autodetection is total and matches the
magic-byte classification -/

/-- The zero fill Go's slice reads past the end of a short stream can
never spell `"<?xml "`, because that string has no zero byte: padding a
stream to six bytes yields the GPX magic iff its own first six bytes
are the magic. -/
theorem sliceZero_xml_iff (l : List ℕ) :
    sliceZero l 6 = [60, 63, 120, 109, 108, 32] ↔
      l.take 6 = [60, 63, 120, 109, 108, 32] := by
  constructor
  · intro h
    by_cases hl : 6 ≤ l.length
    · rwa [sliceZero, List.take_append_of_le_length hl] at h
    · exfalso
      push_neg at hl
      have h5 : (sliceZero l 6).getD 5 0 = 0 := by
        rw [sliceZero, List.take_append_eq_append_take,
          List.take_of_length_le (Nat.le_of_lt hl),
          List.getD_append_right _ _ _ _ (by omega),
          List.take_replicate]
        have h5' : 5 - l.length < min (6 - l.length) 6 := by omega
        simp only [List.getD_eq_getElem?_getD, List.getElem?_replicate]
        rw [if_pos h5']
        rfl
      rw [h] at h5
      exact absurd h5 (by decide)
  · intro h
    have h6 : 6 ≤ l.length := by
      have hlen := congrArg List.length h
      simp at hlen
      omega
    rw [sliceZero, List.take_append_of_le_length h6, h]

/-- C6: format autodetection is total: for every input byte stream
(including streams shorter than six bytes) `determineType` returns
exactly `sbn` when the first four bytes are `A0 A2 00 22`, `gpx` when
the first six bytes are `"<?xml "`, and `unknownType` otherwise — it
never fails. -/
theorem determineType_total_classification (bs : List ℕ) :
    determineType bs =
      if bs.take 4 = [160, 162, 0, 34] then TrackType.sbn
      else if bs.take 6 = [60, 63, 120, 109, 108, 32] then TrackType.gpx
      else TrackType.unknownType := by
  have h44 : (bs.take 100).take 4 = bs.take 4 := by
    rw [List.take_take]
    norm_num
  have h66 : (bs.take 100).take 6 = bs.take 6 := by
    rw [List.take_take]
    norm_num
  have hlen : (bs.take 100).length = min 100 bs.length := List.length_take 100 bs
  by_cases h4 : 4 ≤ bs.length
  · have h4' : 4 ≤ (bs.take 100).length := by rw [hlen]; omega
    simp only [determineType]
    rw [if_pos h4']
    by_cases hsbn : bs.take 4 = [160, 162, 0, 34]
    · rw [if_pos (by rw [h44]; exact hsbn), if_pos hsbn]
    · rw [if_neg (by rw [h44]; exact hsbn), if_neg hsbn]
      have hgpx_iff :
          sliceZero (bs.take 100) 6 = [60, 63, 120, 109, 108, 32] ↔
            bs.take 6 = [60, 63, 120, 109, 108, 32] := by
        rw [sliceZero_xml_iff, h66]
      by_cases hgpx : bs.take 6 = [60, 63, 120, 109, 108, 32]
      · rw [if_pos (hgpx_iff.2 hgpx), if_pos hgpx]
      · rw [if_neg (fun hh => hgpx (hgpx_iff.1 hh)), if_neg hgpx]
  · push_neg at h4
    have h4' : ¬ 4 ≤ (bs.take 100).length := by rw [hlen]; omega
    simp only [determineType]
    rw [if_neg h4']
    have hn1 : ¬ bs.take 4 = [160, 162, 0, 34] := by
      intro hh
      have hl := congrArg List.length hh
      simp at hl
      omega
    have hn2 : ¬ bs.take 6 = [60, 63, 120, 109, 108, 32] := by
      intro hh
      have hl := congrArg List.length hh
      simp at hl
      omega
    rw [if_neg hn1, if_neg hn2]

/-! ## Claim C5: handling of non-position SBN records -/

/-- C5 (amended): a well-framed SBN record whose body's first byte is
not 0x29 is silently skipped WITHOUT checksum verification — whatever
the stored checksum bytes `c0 c1` are (wrong ones included), the reader
returns a silent skip and no decode error. -/
theorem readPointSbn_skips_nonposition_without_checksum
    (h0 h1 h2 c0 c1 b0 : ℕ) (body : List ℕ)
    (hhead : body.head? = some b0) (hb0 : b0 ≠ 41) :
    readPointSbn ([h0, h1, h2, body.length] ++ body ++ [c0, c1, 176, 179]) =
      SbnResult.skip := by
  have hstream : [h0, h1, h2, body.length] ++ body ++ [c0, c1, 176, 179] =
      h0 :: h1 :: h2 :: body.length :: (body ++ [c0, c1, 176, 179]) := by
    simp
  rw [hstream]
  simp only [readPointSbn]
  rw [if_neg (by simp)]
  have e1 : (h0 :: h1 :: h2 :: body.length ::
      (body ++ [c0, c1, 176, 179])).take 4 = [h0, h1, h2, body.length] := rfl
  have e2 : (h0 :: h1 :: h2 :: body.length ::
      (body ++ [c0, c1, 176, 179])).drop 4 = body ++ [c0, c1, 176, 179] := rfl
  rw [e1, e2]
  have e3 : ([h0, h1, h2, body.length] : List ℕ).getD 3 0 = body.length := rfl
  rw [e3]
  rw [if_neg (by simp)]
  rw [List.take_left, List.drop_left]
  rw [if_neg (by simp)]
  have e4 : ([c0, c1, 176, 179] : List ℕ).drop 2 = [176, 179] := rfl
  rw [e4]
  rw [if_neg (by simp)]
  rw [if_neg (by simp)]
  rw [hhead]
  simp only [if_pos hb0]

/-- Witness for `readPointSbn_skips_nonposition_without_checksum` at the
concrete record `skipExampleRecord`. -/
theorem readPointSbn_skips_nonposition_without_checksum_witness :
    ([0, 0] : List ℕ).head? = some 0 ∧ (0 : ℕ) ≠ 41 ∧
      readPointSbn skipExampleRecord = SbnResult.skip :=
  ⟨rfl, by decide,
    readPointSbn_skips_nonposition_without_checksum 160 162 0 255 255 0
      [0, 0] rfl (by decide)⟩

/-- C5 counterexample: `skipExampleRecord` is a non-position record
(first body byte 0x00) whose stored checksum 0xFFFF is wrong (the body
sums to 0), yet the reader yields a silent skip, not a decode error. -/
theorem readPointSbn_bad_checksum_nonposition_no_error :
    readPointSbn skipExampleRecord = SbnResult.skip ∧
      ∀ msg, readPointSbn skipExampleRecord ≠ SbnResult.err msg := by
  constructor
  · with_unfolding_all rfl
  · intro msg h
    rw [show readPointSbn skipExampleRecord = SbnResult.skip from
      by with_unfolding_all rfl] at h
    exact SbnResult.noConfusion h

/-! ## Claim C8: `CleanUp` on inputs shorter than two points -/

/-- C8 (amended): for every input with fewer than two points, `CleanUp`
returns the EMPTY sequence (not the input unchanged): the result
accumulator starts empty and the whole body is guarded by
`len(points.Ps) > 1`. -/
theorem cleanUp_short_input_empty (dist : Point → Point → ℚ)
    (points : List Point) (deltaSpeedMax : ℚ) (speedUnits : UnitsFlag)
    (hlen : points.length < 2) :
    CleanUp dist points deltaSpeedMax speedUnits = some [] := by
  unfold CleanUp
  rw [if_neg (by omega)]

/-- Witness for `cleanUp_short_input_empty` at a concrete one-point
input. -/
theorem cleanUp_short_input_empty_witness :
    ([singleExamplePoint] : List Point).length < 2 ∧
      CleanUp distSimpleEquator [singleExamplePoint] defaultDeltaSpeedMax
        UnitsFlag.kts = some [] :=
  ⟨by decide,
    cleanUp_short_input_empty distSimpleEquator [singleExamplePoint]
      defaultDeltaSpeedMax UnitsFlag.kts (by decide)⟩

/-- C8 counterexample: a one-point input does not pass through
unchanged — `CleanUp` returns the empty sequence instead of the single
point. -/
theorem cleanUp_single_point_not_passthrough :
    CleanUp distSimpleEquator [singleExamplePoint] defaultDeltaSpeedMax
        UnitsFlag.kts = some [] ∧
      some ([] : List Point) ≠ some [singleExamplePoint] := by
  constructor
  · with_unfolding_all rfl
  · intro h
    simp at h

/-! ## Claim C10: undefined headings land in histogram bin 0 -/

/-- C10: in `autoDetectWindDir`'s heading histogram, every point whose
heading is undefined (`-1`) is counted in bin 0 (the 0°–10° bin),
because `int(-1/10)` truncates to 0: bin 0's final count is the number
of points whose heading falls in bin 0, and heading `-1` falls in
bin 0.  Stationary points are therefore tallied in the northerly bin
rather than excluded. -/
theorem autoDetect_undefined_heading_in_bin0 (ps : List Point) :
    headingBin (-1) = 0 ∧
      (buildBins ps).getD 0 0 =
        (ps.filter (fun p => headingBin p.heading = 0)).length := by
  constructor
  · with_unfolding_all rfl
  · have key : ∀ (l : List Point) (bins : List ℕ), bins.length = 36 →
        (l.foldl
          (fun bins p =>
            let bin := (headingBin p.heading).toNat
            bins.set bin (bins.getD bin 0 + 1)) bins).getD 0 0 =
          bins.getD 0 0 +
            (l.filter (fun p => headingBin p.heading = 0)).length := by
      intro l
      induction l with
      | nil => intro bins _; simp
      | cons p l ih =>
        intro bins hlen
        simp only [List.foldl_cons, List.filter_cons]
        have hlen' :
            (bins.set (headingBin p.heading).toNat
              (bins.getD (headingBin p.heading).toNat 0 + 1)).length = 36 := by
          simp [hlen]
        rw [ih _ hlen']
        have hnonneg : 0 ≤ headingBin p.heading :=
          Int.emod_nonneg _ (by norm_num)
        by_cases h0 : headingBin p.heading = 0
        · have hbin : (headingBin p.heading).toNat = 0 := by
            rw [h0]; rfl
          rw [hbin]
          have hset : (bins.set 0 (bins.getD 0 0 + 1)).getD 0 0 =
              bins.getD 0 0 + 1 := by
            simp [List.getD_eq_getElem?_getD, List.getElem?_set_self,
              (by omega : 0 < bins.length)]
          rw [hset]
          simp [h0]
          omega
        · have hbin : (headingBin p.heading).toNat ≠ 0 := by
            intro hh
            exact h0 (by omega)
          have hset : (bins.set (headingBin p.heading).toNat
              (bins.getD (headingBin p.heading).toNat 0 + 1)).getD 0 0 =
              bins.getD 0 0 := by
            simp [List.getD_eq_getElem?_getD, List.getElem?_set_ne hbin]
          rw [hset]
          simp [h0]
    unfold buildBins
    rw [key ps (List.replicate 36 0) (by simp)]
    simp

/-! ## Claim C7: `global_idx` versus position in the cleaned sequence -/

/-- Every point produced by the stage-B loop carries
`globalIdx = idxRes + 1 + (its offset in the loop's output)`: the loop
re-indexes each accepted point as it appends it. -/
theorem stageBGo_globalIdx (dist : Point → Point → ℚ)
    (speedUnits : UnitsFlag) (deltaSpeedMax : ℚ) (psCurr : List Point) :
    ∀ (fuel idxPs : ℕ) (lastAccepted : Point) (speedPrev : ℚ)
      (idxRes j : ℕ) (p : Point),
      (stageBGo dist speedUnits deltaSpeedMax psCurr fuel idxPs
        lastAccepted speedPrev idxRes)[j]? = some p →
      p.globalIdx = idxRes + 1 + j := by
  intro fuel
  induction fuel with
  | zero =>
    intro idxPs lastAccepted speedPrev idxRes j p hp
    simp [stageBGo] at hp
  | succ fuel ih =>
    intro idxPs lastAccepted speedPrev idxRes j p hp
    simp only [stageBGo] at hp
    by_cases hc : idxPs < psCurr.length - 1
    · rw [if_pos hc] at hp
      by_cases hacc :
          speedBetween dist speedUnits lastAccepted (psCurr.getD idxPs default) -
              speedPrev -
              (speedBetween dist speedUnits (psCurr.getD idxPs default)
                  (psCurr.getD (idxPs + 1) default) -
                speedBetween dist speedUnits lastAccepted
                  (psCurr.getD idxPs default)) <
            deltaSpeedMax ∨
          speedBetween dist speedUnits lastAccepted (psCurr.getD idxPs default) -
              speedPrev < 0
      · rw [if_pos hacc] at hp
        cases j with
        | zero =>
          rw [List.getElem?_cons_zero] at hp
          have hp' := Option.some.inj hp
          rw [← hp']
        | succ j =>
          rw [List.getElem?_cons_succ] at hp
          have := ih _ _ _ _ j p hp
          omega
      · rw [if_neg hacc] at hp
        have := ih _ _ _ _ j p hp
        omega
    · rw [if_neg hc] at hp
      simp at hp

/-- C7 (amended): every point at position `i ≥ 2` of a successful
`CleanUp` result has `globalIdx = i`.  (The two seed points at
positions 0 and 1 keep whatever global index they carried before the
speed-outlier stage, so the claim fails for position 1 when stage A
dropped early points.) -/
theorem cleanUp_globalIdx_positions (dist : Point → Point → ℚ)
    (points : List Point) (deltaSpeedMax : ℚ) (speedUnits : UnitsFlag)
    (res : List Point)
    (hres : CleanUp dist points deltaSpeedMax speedUnits = some res) :
    ∀ (i : ℕ), 2 ≤ i → ∀ (hi : i < res.length),
      (res.get ⟨i, hi⟩).globalIdx = i := by
  intro i h2 hi
  unfold CleanUp at hres
  by_cases hlen : points.length > 1
  · rw [if_pos hlen] at hres
    rcases hsA : stageA points with _ | ⟨p0, _ | ⟨p1, rest⟩⟩ <;>
      rw [hsA] at hres
    · exact absurd hres (by simp)
    · exact absurd hres (by simp)
    · have hres' := Option.some.inj hres
      subst hres'
      match i, h2 with
      | j + 2, _ =>
        have hp : ((p0 :: p1 :: stageBGo dist speedUnits deltaSpeedMax
            (p0 :: p1 :: rest) (p0 :: p1 :: rest).length 2 p1
            (speedBetween dist speedUnits p0 p1) 1))[j + 2]? =
            some ((p0 :: p1 :: stageBGo dist speedUnits deltaSpeedMax
              (p0 :: p1 :: rest) (p0 :: p1 :: rest).length 2 p1
              (speedBetween dist speedUnits p0 p1) 1).get ⟨j + 2, hi⟩) :=
          List.getElem?_eq_getElem hi
        rw [List.getElem?_cons_succ, List.getElem?_cons_succ] at hp
        have := stageBGo_globalIdx dist speedUnits deltaSpeedMax
          (p0 :: p1 :: rest) (p0 :: p1 :: rest).length 2 p1
          (speedBetween dist speedUnits p0 p1) 1 j _ hp
        omega
  · rw [if_neg hlen] at hres
    have hres' := Option.some.inj hres
    subst hres'
    simp at hi

/-- Witness for `cleanUp_globalIdx_positions`: the concrete cleaned
sequence `dupTsCleanedExample`, at position 2. -/
theorem cleanUp_globalIdx_positions_witness :
    CleanUp distSimpleEquator dupTsExamplePoints defaultDeltaSpeedMax
        UnitsFlag.kts = some dupTsCleanedExample ∧
      ∀ (hi : 2 < dupTsCleanedExample.length),
        (dupTsCleanedExample.get ⟨2, hi⟩).globalIdx = 2 :=
  ⟨by with_unfolding_all rfl,
    fun hi =>
      cleanUp_globalIdx_positions distSimpleEquator dupTsExamplePoints
        defaultDeltaSpeedMax UnitsFlag.kts dupTsCleanedExample
        (by with_unfolding_all rfl) 2 (by omega) hi⟩

/-- C7 counterexample: on the decoder-conforming input
`dupTsExamplePoints` (raw `globalIdx = position`), the cleaned
sequence's point at position 1 carries `globalIdx = 3`, not 1: the
stage-B seeds are never re-indexed. -/
theorem cleanUp_globalIdx_mismatch_at_position_one :
    CleanUp distSimpleEquator dupTsExamplePoints defaultDeltaSpeedMax
        UnitsFlag.kts = some dupTsCleanedExample ∧
      ∀ (h1 : 1 < dupTsCleanedExample.length),
        (dupTsCleanedExample.get ⟨1, h1⟩).globalIdx ≠ 1 := by
  refine ⟨by with_unfolding_all rfl, fun h1 => ?_⟩
  intro h
  have : (3 : ℕ) = 1 := h
  omega

/-! ## Claims C4 and C9: what survives a `CleanUp` pass -/

/-- Dropping more leading elements yields a sublist. -/
theorem drop_sublist_of_le {α : Type} {i j : ℕ} (hij : i ≤ j)
    (l : List α) : List.Sublist (l.drop j) (l.drop i) := by
  have hj : j = i + (j - i) := by omega
  rw [hj, ← List.drop_drop]
  exact List.drop_sublist _ _

/-- `stageAGap` never returns an index below `idxLast` and `idxNext - 1`
(its result is one of the scanned indices). -/
theorem stageAGap_ge (ps : List Point) :
    ∀ (fuel idxNext idxLast : ℕ) (dt : ℚ),
      idxLast ≤ stageAGap ps fuel idxNext idxLast dt ∨
        idxNext ≤ stageAGap ps fuel idxNext idxLast dt := by
  intro fuel
  induction fuel with
  | zero =>
    intro idxNext idxLast dt
    left
    simp [stageAGap]
  | succ fuel ih =>
    intro idxNext idxLast dt
    rw [stageAGap]
    by_cases hc : idxNext < ps.length - 1 ∧ dt > 1
    · rw [if_pos hc]
      rcases ih (idxNext + 1) idxNext
          ((ps.getD (idxNext + 1) default).ts - (ps.getD idxNext default).ts)
          with h | h
      · right; omega
      · right; omega
    · rw [if_neg hc]
      left
      omega

/-- The stage-A outer loop only ever emits elements of the input, in
order, from the running index on: its output is a sublist of
`ps.drop idxPs`. -/
theorem stageAGo_sublist (ps : List Point) :
    ∀ (fuel idxPs : ℕ), List.Sublist (stageAGo ps fuel idxPs) (ps.drop idxPs) := by
  intro fuel
  induction fuel with
  | zero =>
    intro idxPs
    simp [stageAGo]
  | succ fuel ih =>
    intro idxPs
    rw [stageAGo]
    by_cases h1 : idxPs < ps.length
    · rw [if_pos h1]
      have hdrop : ps.drop idxPs =
          ps.getD idxPs default :: ps.drop (idxPs + 1) := by
        rw [List.getD_eq_getElem ps default h1]
        exact List.drop_eq_getElem_cons h1
      by_cases h2 : idxPs < ps.length - 1
      · rw [if_pos h2]
        by_cases h3 : (ps.getD idxPs default).ts =
            (ps.getD (idxPs + 1) default).ts
        · rw [if_pos h3]
          exact (ih (idxPs + 2)).trans (drop_sublist_of_le (by omega) ps)
        · rw [if_neg h3]
          by_cases h4 : (ps.getD (idxPs + 1) default).ts -
              (ps.getD idxPs default).ts > 1
          · rw [if_pos h4]
            have hge := stageAGap_ge ps ps.length (idxPs + 1) (idxPs + 1)
              ((ps.getD (idxPs + 1) default).ts - (ps.getD idxPs default).ts)
            have hj : idxPs ≤ stageAGap ps ps.length (idxPs + 1) (idxPs + 1)
                ((ps.getD (idxPs + 1) default).ts -
                  (ps.getD idxPs default).ts) + 3 := by
              rcases hge with h | h <;> omega
            exact (ih _).trans (drop_sublist_of_le hj ps)
          · rw [if_neg h4]
            rw [hdrop]
            exact (ih (idxPs + 1)).cons₂ _
      · rw [if_neg h2]
        rw [hdrop]
        exact (ih (idxPs + 1)).cons₂ _
    · rw [if_neg h1]
      exact List.nil_sublist _

/-- Stage A returns a sublist of its input: it only removes points. -/
theorem stageA_sublist (ps : List Point) : List.Sublist (stageA ps) ps := by
  match ps with
  | [] => exact List.Sublist.refl _
  | p0 :: rest =>
    rw [stageA]
    exact (stageAGo_sublist (p0 :: rest) (p0 :: rest).length 1).cons₂ _

/-- The stage-B loop emits (re-indexed copies of) input elements from
index `idxPs` up to the next-to-last, in order: its output, with global
indices erased, is a sublist of the same portion of the input. -/
theorem stageBGo_strip_sublist (dist : Point → Point → ℚ)
    (speedUnits : UnitsFlag) (deltaSpeedMax : ℚ) (psCurr : List Point) :
    ∀ (fuel idxPs : ℕ) (lastAccepted : Point) (speedPrev : ℚ) (idxRes : ℕ),
      List.Sublist
        ((stageBGo dist speedUnits deltaSpeedMax psCurr fuel idxPs
          lastAccepted speedPrev idxRes).map stripIdx)
        (((psCurr.take (psCurr.length - 1)).drop idxPs).map stripIdx) := by
  intro fuel
  induction fuel with
  | zero =>
    intro idxPs lastAccepted speedPrev idxRes
    simp [stageBGo]
  | succ fuel ih =>
    intro idxPs lastAccepted speedPrev idxRes
    rw [stageBGo]
    by_cases hc : idxPs < psCurr.length - 1
    · rw [if_pos hc]
      have hlt : idxPs < (psCurr.take (psCurr.length - 1)).length := by
        rw [List.length_take]
        omega
      have hmem : (psCurr.take (psCurr.length - 1))[idxPs] =
          psCurr.getD idxPs default := by
        rw [List.getElem_take]
        rw [List.getD_eq_getElem psCurr default (by omega)]
      have hdrop : (psCurr.take (psCurr.length - 1)).drop idxPs =
          psCurr.getD idxPs default ::
            (psCurr.take (psCurr.length - 1)).drop (idxPs + 1) := by
        rw [← hmem]
        exact List.drop_eq_getElem_cons hlt
      by_cases hacc :
          speedBetween dist speedUnits lastAccepted (psCurr.getD idxPs default) -
              speedPrev -
              (speedBetween dist speedUnits (psCurr.getD idxPs default)
                  (psCurr.getD (idxPs + 1) default) -
                speedBetween dist speedUnits lastAccepted
                  (psCurr.getD idxPs default)) <
            deltaSpeedMax ∨
          speedBetween dist speedUnits lastAccepted (psCurr.getD idxPs default) -
              speedPrev < 0
      · rw [if_pos hacc]
        rw [hdrop]
        simp only [List.map_cons]
        have hstrip :
            stripIdx { psCurr.getD idxPs default with globalIdx := idxRes + 1 } =
              stripIdx (psCurr.getD idxPs default) := rfl
        rw [hstrip]
        exact (ih (idxPs + 1) _ _ _).cons₂ _
      · rw [if_neg hacc]
        refine (ih (idxPs + 1) _ _ _).trans ?_
        exact (drop_sublist_of_le (by omega) _).map _
    · rw [if_neg hc]
      simp

/-- A successful `CleanUp` only removes points and re-indexes the kept
ones: with global indices erased, its output is a sublist of its
input. -/
theorem cleanUp_strip_sublist (dist : Point → Point → ℚ)
    (points : List Point) (deltaSpeedMax : ℚ) (speedUnits : UnitsFlag)
    (res : List Point)
    (hres : CleanUp dist points deltaSpeedMax speedUnits = some res) :
    List.Sublist (res.map stripIdx) (points.map stripIdx) := by
  unfold CleanUp at hres
  by_cases hlen : points.length > 1
  · rw [if_pos hlen] at hres
    rcases hsA : stageA points with _ | ⟨p0, _ | ⟨p1, rest⟩⟩ <;>
      rw [hsA] at hres
    · exact absurd hres (by simp)
    · exact absurd hres (by simp)
    · have hres' := Option.some.inj hres
      subst hres'
      have hbody := stageBGo_strip_sublist dist speedUnits deltaSpeedMax
        (p0 :: p1 :: rest) (p0 :: p1 :: rest).length 2 p1
        (speedBetween dist speedUnits p0 p1) 1
      have hportion : List.Sublist (((p0 :: p1 :: rest).take
          ((p0 :: p1 :: rest).length - 1)).drop 2) rest := by
        rw [List.drop_take]
        exact (List.take_sublist _ _).trans (by simp [List.drop_drop])
      have hsub1 : List.Sublist
          ((p0 :: p1 :: stageBGo dist speedUnits deltaSpeedMax
            (p0 :: p1 :: rest) (p0 :: p1 :: rest).length 2 p1
            (speedBetween dist speedUnits p0 p1) 1).map stripIdx)
          ((p0 :: p1 :: rest).map stripIdx) := by
        simp only [List.map_cons]
        exact ((hbody.trans (hportion.map stripIdx)).cons₂ _).cons₂ _
      have hsub2 : List.Sublist ((p0 :: p1 :: rest).map stripIdx)
          (points.map stripIdx) := by
        rw [← hsA]
        exact (stageA_sublist points).map stripIdx
      exact hsub1.trans hsub2
  · rw [if_neg hlen] at hres
    have hres' := Option.some.inj hres
    subst hres'
    exact List.nil_sublist _

/-- C4 (amended): `CleanUp` is not idempotent; what does hold is that a
second application returns a subsequence of the first application's
output (up to the re-assigned global indices), not necessarily the
same sequence. -/
theorem cleanUp_reapply_sublist (dist : Point → Point → ℚ)
    (points y z : List Point) (deltaSpeedMax : ℚ) (speedUnits : UnitsFlag)
    (_hy : CleanUp dist points deltaSpeedMax speedUnits = some y)
    (hz : CleanUp dist y deltaSpeedMax speedUnits = some z) :
    List.Sublist (z.map stripIdx) (y.map stripIdx) :=
  cleanUp_strip_sublist dist y deltaSpeedMax speedUnits z hz

/-- Witness for `cleanUp_reapply_sublist` at the concrete gap fixture. -/
theorem cleanUp_reapply_sublist_witness :
    CleanUp distSimpleEquator gapExamplePoints defaultDeltaSpeedMax
        UnitsFlag.kts = some gapCleanedOnce ∧
      CleanUp distSimpleEquator gapCleanedOnce defaultDeltaSpeedMax
        UnitsFlag.kts = some gapCleanedTwice ∧
      List.Sublist (gapCleanedTwice.map stripIdx)
        (gapCleanedOnce.map stripIdx) :=
  ⟨by with_unfolding_all rfl, by with_unfolding_all rfl,
    cleanUp_reapply_sublist distSimpleEquator gapExamplePoints
      gapCleanedOnce gapCleanedTwice defaultDeltaSpeedMax UnitsFlag.kts
      (by with_unfolding_all rfl) (by with_unfolding_all rfl)⟩

/-- C4 counterexample: on the ten-point 1 Hz sequence from the source's
own comment (seconds 43…54 with 47 and 49 missing, all at one spot),
one `CleanUp` keeps four points but a second `CleanUp` of that output
keeps only two — applying `CleanUp` to its own output does NOT return
the same sequence. -/
theorem cleanUp_not_idempotent :
    CleanUp distSimpleEquator gapExamplePoints defaultDeltaSpeedMax
        UnitsFlag.kts = some gapCleanedOnce ∧
      CleanUp distSimpleEquator gapCleanedOnce defaultDeltaSpeedMax
        UnitsFlag.kts = some gapCleanedTwice ∧
      gapCleanedTwice ≠ gapCleanedOnce := by
  refine ⟨by with_unfolding_all rfl, by with_unfolding_all rfl, ?_⟩
  intro h
  have hl := congrArg List.length h
  simp [gapCleanedOnce, gapCleanedTwice] at hl

/-- C9: when stage A's output has at least three points, `CleanUp`'s
final result draws only from stage A's output WITHOUT its last point
(the speed-outlier loop stops at the next-to-last index), so the
session's final fix is always discarded: the result (with global
indices erased) is a sublist of `(stageA points).dropLast`. -/
theorem cleanUp_drops_stageA_last (dist : Point → Point → ℚ)
    (points : List Point) (deltaSpeedMax : ℚ) (speedUnits : UnitsFlag)
    (res : List Point)
    (hres : CleanUp dist points deltaSpeedMax speedUnits = some res)
    (h3 : 3 ≤ (stageA points).length) :
    List.Sublist (res.map stripIdx)
      (((stageA points).dropLast).map stripIdx) := by
  unfold CleanUp at hres
  by_cases hlen : points.length > 1
  · rw [if_pos hlen] at hres
    rcases hsA : stageA points with _ | ⟨p0, _ | ⟨p1, rest⟩⟩ <;>
      rw [hsA] at hres
    · exact absurd hres (by simp)
    · exact absurd hres (by simp)
    · have hres' := Option.some.inj hres
      subst hres'
      rw [hsA] at h3
      rcases rest with _ | ⟨r, rs⟩
      · simp at h3
      · have hbody := stageBGo_strip_sublist dist speedUnits deltaSpeedMax
          (p0 :: p1 :: r :: rs) (p0 :: p1 :: r :: rs).length 2 p1
          (speedBetween dist speedUnits p0 p1) 1
        rw [List.dropLast_eq_take]
        have htake : ((p0 :: p1 :: r :: rs).take
            ((p0 :: p1 :: r :: rs).length - 1)) =
            p0 :: p1 :: (r :: rs).take ((r :: rs).length - 1) := rfl
        rw [htake] at hbody ⊢
        have hdrop2 :
            ((p0 :: p1 :: (r :: rs).take ((r :: rs).length - 1)).drop 2) =
              (r :: rs).take ((r :: rs).length - 1) := rfl
        rw [hdrop2] at hbody
        simp only [List.map_cons]
        exact (hbody.cons₂ _).cons₂ _
  · rw [if_neg hlen] at hres
    have hres' := Option.some.inj hres
    subst hres'
    exact List.nil_sublist _

/-- Witness for `cleanUp_drops_stageA_last` at the concrete gap
fixture: stage A keeps five points (43, 44, 45, 53, 54) and the final
result draws only from the first four. -/
theorem cleanUp_drops_stageA_last_witness :
    CleanUp distSimpleEquator gapExamplePoints defaultDeltaSpeedMax
        UnitsFlag.kts = some gapCleanedOnce ∧
      3 ≤ (stageA gapExamplePoints).length ∧
      List.Sublist (gapCleanedOnce.map stripIdx)
        (((stageA gapExamplePoints).dropLast).map stripIdx) := by
  have hlen : (stageA gapExamplePoints).length = 5 := by
    with_unfolding_all rfl
  exact ⟨by with_unfolding_all rfl, by omega,
    cleanUp_drops_stageA_last distSimpleEquator gapExamplePoints
      defaultDeltaSpeedMax UnitsFlag.kts gapCleanedOnce
      (by with_unfolding_all rfl) (by omega)⟩

/-! ## Claim C3: running-sum invariants of the min-duration window -/

/-- Appending a point adds one segment to the pairwise-distance sum. -/
theorem pathSum_concat (dist : Point → Point → ℚ) :
    ∀ (ps : List Point) (hne : ps ≠ []) (p : Point),
      pathSum dist (ps ++ [p]) =
        pathSum dist ps + dist (ps.getLast hne) p := by
  intro ps
  induction ps with
  | nil => intro h; exact absurd rfl h
  | cons a ps ih =>
    intro hne p
    cases ps with
    | nil => simp [pathSum]
    | cons b ps' =>
      have hlast : (a :: b :: ps').getLast hne =
          (b :: ps').getLast (by simp) := List.getLast_cons (by simp)
      calc pathSum dist ((a :: b :: ps') ++ [p])
          = dist a b + pathSum dist ((b :: ps') ++ [p]) := rfl
        _ = dist a b +
            (pathSum dist (b :: ps') + dist ((b :: ps').getLast (by simp)) p) := by
            rw [ih (by simp) p]
        _ = (dist a b + pathSum dist (b :: ps')) +
            dist ((b :: ps').getLast (by simp)) p := by ring
        _ = pathSum dist (a :: b :: ps') +
            dist ((a :: b :: ps').getLast hne) p := by
            rw [hlast,
              show pathSum dist (a :: b :: ps') =
                dist a b + pathSum dist (b :: ps') from rfl]

/-- Appending a point extends the timestamp span to the new last
point. -/
theorem spanTs_concat :
    ∀ (ps : List Point) (hne : ps ≠ []) (p : Point),
      spanTs (ps ++ [p]) = spanTs ps + (p.ts - (ps.getLast hne).ts) := by
  intro ps hne p
  match ps, hne with
  | a :: rest, _ =>
    have h1 : spanTs ((a :: rest) ++ [p]) =
        (((a :: rest) ++ [p]).getLast (by simp)).ts - a.ts := rfl
    have h2 : spanTs (a :: rest) =
        ((a :: rest).getLast (by simp)).ts - a.ts := rfl
    rw [h1, h2, List.getLast_concat]
    ring

/-- Removing the first point shortens the span by the first segment. -/
theorem spanTs_tail (p0 p1 : Point) (rest : List Point) :
    spanTs (p0 :: p1 :: rest) = spanTs (p1 :: rest) + (p1.ts - p0.ts) := by
  have h1 : spanTs (p0 :: p1 :: rest) =
      ((p0 :: p1 :: rest).getLast (by simp)).ts - p0.ts := by rw [spanTs]
  have h2 : spanTs (p1 :: rest) =
      ((p1 :: rest).getLast (by simp)).ts - p1.ts := by rw [spanTs]
  rw [h1, h2, List.getLast_cons (by simp)]
  ring

/-- The left-shrink loop preserves the exact running sums (and the
already-reached duration target). -/
theorem shrinkDurGo_inv (dist : Point → Point → ℚ) (minDuration : ℚ) :
    ∀ (ps : List Point) (dur dst : ℚ),
      dur = spanTs ps → dst = pathSum dist ps →
      (shrinkDurGo dist minDuration ps dur dst).2.1 =
          spanTs (shrinkDurGo dist minDuration ps dur dst).1 ∧
        (shrinkDurGo dist minDuration ps dur dst).2.2 =
          pathSum dist (shrinkDurGo dist minDuration ps dur dst).1 ∧
        (minDuration ≤ dur →
          minDuration ≤ (shrinkDurGo dist minDuration ps dur dst).2.1) := by
  intro ps
  induction ps with
  | nil =>
    intro dur dst h1 h2
    exact ⟨h1, h2, fun h => h⟩
  | cons p0 ps' ih =>
    intro dur dst h1 h2
    rcases ps' with _ | ⟨p1, _ | ⟨p2, rest⟩⟩
    · exact ⟨h1, h2, fun h => h⟩
    · exact ⟨h1, h2, fun h => h⟩
    · rw [shrinkDurGo]
      by_cases hc : dur - (p1.ts - p0.ts) ≥ minDuration
      · rw [if_pos hc]
        have h1' : dur - (p1.ts - p0.ts) = spanTs (p1 :: p2 :: rest) := by
          rw [h1, spanTs_tail]
          ring
        have h2' : dst - dist p0 p1 = pathSum dist (p1 :: p2 :: rest) := by
          rw [h2]
          have : pathSum dist (p0 :: p1 :: p2 :: rest) =
              dist p0 p1 + pathSum dist (p1 :: p2 :: rest) := rfl
          rw [this]
          ring
        rcases ih (dur - (p1.ts - p0.ts)) (dst - dist p0 p1) h1' h2' with
          ⟨ha, hb, hcl⟩
        exact ⟨ha, hb, fun _ => hcl hc⟩
      · rw [if_neg hc]
        exact ⟨h1, h2, fun h => h⟩

/-- One append through `addPointMinDurationUnused10s` preserves the
three window invariants (for a positive duration target). -/
theorem addPointMinDuration_inv (dist : Point → Point → ℚ) (D : ℚ)
    (hD : 0 < D) (t : Track) (p : Point) (b : Bool)
    (h1 : t.distance = pathSum dist t.ps)
    (h2 : t.duration = spanTs t.ps)
    (h3 : t.valid = true ↔ D ≤ t.duration) :
    (addPointMinDurationUnused10s dist t p D b).distance =
        pathSum dist (addPointMinDurationUnused10s dist t p D b).ps ∧
      (addPointMinDurationUnused10s dist t p D b).duration =
        spanTs (addPointMinDurationUnused10s dist t p D b).ps ∧
      ((addPointMinDurationUnused10s dist t p D b).valid = true ↔
        D ≤ (addPointMinDurationUnused10s dist t p D b).duration) := by
  unfold addPointMinDurationUnused10s
  by_cases hb : b = true ∧ p.usedFor10s = true
  · rw [if_pos hb]
    refine ⟨rfl, by simp [spanTs], ?_⟩
    constructor
    · intro h
      exact absurd h (by simp)
    · intro h
      exact absurd (lt_of_lt_of_le hD h) (by simp)
  · rw [if_neg hb]
    rcases hps : t.ps with _ | ⟨q, qs⟩
    · refine ⟨?_, ?_, ?_⟩
      · have : pathSum dist [p] = 0 := rfl
        rw [this, h1, hps]
        rfl
      · have : spanTs [p] = p.ts - p.ts := rfl
        rw [this, h2, hps]
        simp [spanTs]
      · rw [h3, h2, hps]
    · simp only [hps]
      have hdur : t.duration + (p.ts - (List.getLast (q :: qs) (by simp)).ts) =
          spanTs ((q :: qs) ++ [p]) := by
        rw [h2, hps, spanTs_concat (q :: qs) (by simp) p]
      have hdst : t.distance + dist (List.getLast (q :: qs) (by simp)) p =
          pathSum dist ((q :: qs) ++ [p]) := by
        rw [h1, hps, pathSum_concat dist (q :: qs) (by simp) p]
      split
      · next hcond =>
        unfold shrinkDur
        rcases shrinkDurGo_inv dist D ((q :: qs) ++ [p])
            (t.duration + (p.ts - (List.getLast (q :: qs) (by simp)).ts))
            (t.distance + dist (List.getLast (q :: qs) (by simp)) p)
            hdur hdst with ⟨ha, hb', hcl⟩
        refine ⟨hb', ha, ?_⟩
        have hvalid : decide
            (t.duration + (p.ts - (List.getLast (q :: qs) (by simp)).ts) ≥ D) =
            true := by
          simp only [decide_eq_true_iff, ge_iff_le]
          exact le_of_lt hcond.1
        rw [hvalid]
        have hge : D ≤ (shrinkDurGo dist D ((q :: qs) ++ [p])
            (t.duration + (p.ts - (List.getLast (q :: qs) (by simp)).ts))
            (t.distance + dist (List.getLast (q :: qs) (by simp)) p)).2.1 :=
          hcl (le_of_lt hcond.1)
        exact iff_of_true rfl hge
      · refine ⟨hdst, hdur, ?_⟩
        simp only [decide_eq_true_iff, ge_iff_le]

/-- C3: after every finite sequence of appends through the min-duration
window operation (target `D > 0`), the track's `distance` equals the
sum of pairwise point distances over its current point list, its
`duration` equals the timestamp difference between its last and first
points, and `valid` holds iff that duration meets or exceeds `D`. -/
theorem minDuration_window_invariants (dist : Point → Point → ℚ)
    (speedUnits : UnitsFlag) (D : ℚ) (hD : 0 < D)
    (apps : List (Point × Bool)) :
    (runMinDuration dist speedUnits D apps).distance =
        pathSum dist (runMinDuration dist speedUnits D apps).ps ∧
      (runMinDuration dist speedUnits D apps).duration =
        spanTs (runMinDuration dist speedUnits D apps).ps ∧
      ((runMinDuration dist speedUnits D apps).valid = true ↔
        D ≤ (runMinDuration dist speedUnits D apps).duration) := by
  have key : ∀ (l : List (Point × Bool)) (t : Track),
      (t.distance = pathSum dist t.ps ∧ t.duration = spanTs t.ps ∧
        (t.valid = true ↔ D ≤ t.duration)) →
      ((l.foldl (fun t pb =>
            addPointMinDurationUnused10s dist t pb.1 D pb.2) t).distance =
          pathSum dist (l.foldl (fun t pb =>
            addPointMinDurationUnused10s dist t pb.1 D pb.2) t).ps ∧
        (l.foldl (fun t pb =>
            addPointMinDurationUnused10s dist t pb.1 D pb.2) t).duration =
          spanTs (l.foldl (fun t pb =>
            addPointMinDurationUnused10s dist t pb.1 D pb.2) t).ps ∧
        ((l.foldl (fun t pb =>
            addPointMinDurationUnused10s dist t pb.1 D pb.2) t).valid = true ↔
          D ≤ (l.foldl (fun t pb =>
            addPointMinDurationUnused10s dist t pb.1 D pb.2) t).duration)) := by
    intro l
    induction l with
    | nil =>
      intro t ht
      simpa using ht
    | cons pb l ih =>
      intro t ht
      simp only [List.foldl_cons]
      exact ih _
        (addPointMinDuration_inv dist D hD t pb.1 pb.2 ht.1 ht.2.1 ht.2.2)
  refine key apps (emptyTrack speedUnits) ⟨rfl, rfl, ?_⟩
  constructor
  · intro h
    exact absurd h (by simp [emptyTrack])
  · intro h
    rw [show (emptyTrack speedUnits).duration = 0 from rfl] at h
    exact absurd h (not_le.mpr hD)

/-- Witness for `minDuration_window_invariants`: a two-point run with
the 10-second target. -/
theorem minDuration_window_invariants_witness :
    (0 : ℚ) < 10 ∧
      ((runMinDuration distSimpleEquator UnitsFlag.ms 10
          [(tsPoint 0 0, false), (tsPoint 20 1, false)]).distance =
        pathSum distSimpleEquator (runMinDuration distSimpleEquator
          UnitsFlag.ms 10
          [(tsPoint 0 0, false), (tsPoint 20 1, false)]).ps ∧
      (runMinDuration distSimpleEquator UnitsFlag.ms 10
          [(tsPoint 0 0, false), (tsPoint 20 1, false)]).duration =
        spanTs (runMinDuration distSimpleEquator UnitsFlag.ms 10
          [(tsPoint 0 0, false), (tsPoint 20 1, false)]).ps ∧
      ((runMinDuration distSimpleEquator UnitsFlag.ms 10
          [(tsPoint 0 0, false), (tsPoint 20 1, false)]).valid = true ↔
        10 ≤ (runMinDuration distSimpleEquator UnitsFlag.ms 10
          [(tsPoint 0 0, false), (tsPoint 20 1, false)]).duration)) :=
  ⟨by norm_num,
    minDuration_window_invariants distSimpleEquator UnitsFlag.ms 10
      (by norm_num) [(tsPoint 0 0, false), (tsPoint 20 1, false)]⟩

/-! ## Claim C1: distance bounds of the Alpha/Delta 500 result -/

/-- Step 1's loop keeps the running distance equal to the pairwise sum,
keeps tack sides known, never drops below two points, and stops only
once removing one more segment would not leave the track over
`maxDistance` (given every side is known). -/
theorem shrinkTurnGo_inv (dist : Point → Point → ℚ) (maxDistance : ℚ) :
    ∀ (ps : List Point) (dur dst : ℚ),
      dst = pathSum dist ps →
      (∀ q ∈ ps, q.tackSide ≠ TackSide.unknown) →
      ((shrinkTurnGo dist maxDistance ps dur dst).2.2 =
          pathSum dist (shrinkTurnGo dist maxDistance ps dur dst).1 ∧
        (∀ q ∈ (shrinkTurnGo dist maxDistance ps dur dst).1,
          q.tackSide ≠ TackSide.unknown) ∧
        (2 ≤ ps.length →
          2 ≤ (shrinkTurnGo dist maxDistance ps dur dst).1.length) ∧
        (∀ (p0 p1 p2 : Point) (rest : List Point),
          (shrinkTurnGo dist maxDistance ps dur dst).1 =
            p0 :: p1 :: p2 :: rest →
          (shrinkTurnGo dist maxDistance ps dur dst).2.2 - dist p0 p1 ≤
            maxDistance)) := by
  intro ps
  induction ps with
  | nil =>
    intro dur dst h1 h2
    refine ⟨h1, h2, fun h => h, ?_⟩
    intro p0 p1 p2 rest h
    rw [show (shrinkTurnGo dist maxDistance [] dur dst).1 = [] from rfl] at h
    exact absurd h (by simp)
  | cons a ps' ih =>
    intro dur dst h1 h2
    rcases ps' with _ | ⟨p1, _ | ⟨p2, rest⟩⟩
    · refine ⟨h1, h2, fun h => by simp at h, ?_⟩
      intro q0 q1 q2 qrest h
      rw [show (shrinkTurnGo dist maxDistance [a] dur dst).1 = [a] from rfl]
        at h
      exact absurd (congrArg List.length h) (by simp)
    · refine ⟨h1, h2, fun _ => ?_, ?_⟩
      · rw [show (shrinkTurnGo dist maxDistance [a, p1] dur dst).1 = [a, p1]
          from rfl]
        simp
      · intro q0 q1 q2 qrest h
        rw [show (shrinkTurnGo dist maxDistance [a, p1] dur dst).1 = [a, p1]
          from rfl] at h
        exact absurd (congrArg List.length h) (by simp)
    · rw [shrinkTurnGo]
      by_cases hc : dst - dist a p1 > maxDistance ∧
          a.tackSide ≠ TackSide.unknown
      · rw [if_pos hc]
        have h1' : dst - dist a p1 = pathSum dist (p1 :: p2 :: rest) := by
          rw [h1,
            show pathSum dist (a :: p1 :: p2 :: rest) =
              dist a p1 + pathSum dist (p1 :: p2 :: rest) from rfl]
          ring
        have h2' : ∀ q ∈ p1 :: p2 :: rest, q.tackSide ≠ TackSide.unknown :=
          fun q hq => h2 q (List.mem_cons_of_mem a hq)
        rcases ih (dur - (p1.ts - a.ts)) (dst - dist a p1) h1' h2' with
          ⟨ha, hb, hlen, hexit⟩
        exact ⟨ha, hb, fun _ => hlen (by simp), hexit⟩
      · rw [if_neg hc]
        refine ⟨h1, h2, fun h => by simp, ?_⟩
        intro q0 q1 q2 qrest h
        have hinj := h
        rw [List.cons.injEq, List.cons.injEq] at hinj
        have hside : a.tackSide ≠ TackSide.unknown := h2 a (by simp)
        have hle : ¬ dst - dist a p1 > maxDistance := fun hgt => hc ⟨hgt, hside⟩
        rw [← hinj.1, ← hinj.2.1]
        linarith [not_lt.mp hle]

/-- Step 1 (the loop plus its unconditional extra removal) leaves a
track whose distance is the exact pairwise sum and at most
`maxDistance ≥ 0`, with all sides still known. -/
theorem step1_bound (dist : Point → Point → ℚ)
    (maxDistance : ℚ) (hmax : 0 ≤ maxDistance)
    (t1 : Track)
    (h1 : t1.distance = pathSum dist t1.ps)
    (hside : ∀ q ∈ t1.ps, q.tackSide ≠ TackSide.unknown)
    (hlen : 2 ≤ t1.ps.length) :
    (popFront dist (shrinkTurn dist maxDistance t1)).distance =
        pathSum dist (popFront dist (shrinkTurn dist maxDistance t1)).ps ∧
      (∀ q ∈ (popFront dist (shrinkTurn dist maxDistance t1)).ps,
        q.tackSide ≠ TackSide.unknown) ∧
      (popFront dist (shrinkTurn dist maxDistance t1)).distance ≤
        maxDistance := by
  rcases shrinkTurnGo_inv dist maxDistance t1.ps t1.duration t1.distance h1
    hside with ⟨ha, hb, hlenr, hexit⟩
  unfold shrinkTurn popFront
  simp only
  rcases hr : (shrinkTurnGo dist maxDistance t1.ps t1.duration
      t1.distance).1 with _ | ⟨q0, _ | ⟨q1, qrest⟩⟩
  · exact absurd (hr ▸ hlenr hlen) (by simp)
  · exact absurd (hr ▸ hlenr hlen) (by simp)
  · rw [hr] at ha hb hexit
    simp only [hr]
    rcases qrest with _ | ⟨q2, qrest'⟩
    · refine ⟨?_, ?_, ?_⟩
      · rw [ha,
          show pathSum dist [q0, q1] = dist q0 q1 + pathSum dist [q1] from rfl,
          show pathSum dist [q1] = 0 from rfl]
        ring
      · intro q hq
        exact hb q (List.mem_cons_of_mem q0 hq)
      · rw [ha,
          show pathSum dist [q0, q1] = dist q0 q1 + pathSum dist [q1] from rfl,
          show pathSum dist [q1] = 0 from rfl]
        linarith
    · refine ⟨?_, ?_, ?_⟩
      · rw [ha,
          show pathSum dist (q0 :: q1 :: q2 :: qrest') =
            dist q0 q1 + pathSum dist (q1 :: q2 :: qrest') from rfl]
        ring
      · intro q hq
        exact hb q (List.mem_cons_of_mem q0 hq)
      · exact hexit q0 q1 q2 qrest' rfl

/-- Step 2 never drops anything when every tack side is known. -/
theorem dropUnknownTailGo_id :
    ∀ (fuel : ℕ) (ps : List Point),
      (∀ q ∈ ps, q.tackSide ≠ TackSide.unknown) →
      dropUnknownTailGo fuel ps = ps := by
  intro fuel
  induction fuel with
  | zero => intro ps _; rfl
  | succ fuel _ =>
    intro ps hside
    rw [dropUnknownTailGo]
    by_cases hlen : ps.length > 2
    · rw [if_pos hlen]
      rcases hlast : ps.getLast? with _ | lastP
      · rfl
      · have hmem := List.mem_of_mem_getLast? hlast
        dsimp only
        rw [if_neg (hside lastP hmem)]
    · rw [if_neg hlen]

/-- The gate search only returns suffixes whose exact path length is
between `minDistance` and the running distance it started from. -/
theorem gateScan_bounds (dist : Point → Point → ℚ)
    (hd : ∀ p q, 0 ≤ dist p q) (minDistance gateSize : ℚ)
    (firstSide : TackSide) (bound : ℚ) :
    ∀ (ps : List Point) (sd : ℚ),
      sd = pathSum dist ps → sd ≤ bound →
      ∀ sub, gateScan dist minDistance gateSize firstSide sd ps = some sub →
        minDistance ≤ pathSum dist sub ∧ pathSum dist sub ≤ bound := by
  intro ps
  induction ps with
  | nil =>
    intro sd _ _ sub hsub
    simp [gateScan] at hsub
  | cons a ps' ih =>
    intro sd hsd hbound sub hsub
    rcases ps' with _ | ⟨p1, _ | ⟨p2, rest⟩⟩
    · simp [gateScan] at hsub
    · simp [gateScan] at hsub
    · rw [gateScan] at hsub
      by_cases hmin : sd < minDistance
      · rw [if_pos hmin] at hsub
        exact absurd hsub (by simp)
      · rw [if_neg hmin] at hsub
        by_cases hfs : a.tackSide ≠ firstSide
        · rw [if_pos hfs] at hsub
          exact absurd hsub (by simp)
        · rw [if_neg hfs] at hsub
          have hnext : sd - dist a p1 = pathSum dist (p1 :: p2 :: rest) := by
            rw [hsd,
              show pathSum dist (a :: p1 :: p2 :: rest) =
                dist a p1 + pathSum dist (p1 :: p2 :: rest) from rfl]
            ring
          have hnextb : sd - dist a p1 ≤ bound := by
            have := hd a p1
            linarith
          by_cases hunk : a.tackSide = TackSide.unknown
          · rw [if_pos hunk] at hsub
            exact ih _ hnext hnextb sub hsub
          · rw [if_neg hunk] at hsub
            by_cases hgate : dist a ((a :: p1 :: p2 :: rest).getLast
                (by simp)) ≤ gateSize ∧ sd ≥ minDistance
            · rw [if_pos hgate] at hsub
              have hsub' := Option.some.inj hsub
              rw [← hsub', ← hsd]
              exact ⟨hgate.2, hbound⟩
            · rw [if_neg hgate] at hsub
              exact ih _ hnext hnextb sub hsub

/-- On a track whose exact distance is at most `B`, any valid subtrack
the gate phase returns has distance between `minDistance` and `B`. -/
theorem turnGatePhase_bounds (dist : Point → Point → ℚ)
    (hd : ∀ p q, 0 ≤ dist p q) (minDistance gateSize B : ℚ)
    (firstSide : TackSide) (speedUnits : UnitsFlag) (t3 : Track)
    (h1 : t3.distance = pathSum dist t3.ps) (hB : t3.distance ≤ B) :
    (turnGatePhase dist minDistance gateSize firstSide speedUnits
        t3).2.valid = true →
      minDistance ≤ (turnGatePhase dist minDistance gateSize firstSide
          speedUnits t3).2.distance ∧
        (turnGatePhase dist minDistance gateSize firstSide speedUnits
          t3).2.distance ≤ B := by
  unfold turnGatePhase
  rcases hlast : t3.ps.getLast? with _ | lastP
  · intro habs
    simp [emptyTrack] at habs
  · dsimp only
    by_cases hcond : lastP.tackSide ≠ TackSide.unknown ∧
        lastP.tackSide ≠ firstSide
    · rw [if_pos hcond]
      rcases hscan : gateScan dist minDistance gateSize firstSide
          t3.distance t3.ps with _ | sub
      · intro habs
        simp [emptyTrack] at habs
      · intro _
        have hbounds := gateScan_bounds dist hd minDistance gateSize
          firstSide B t3.ps t3.distance h1 hB sub hscan
        have hdist : (reCalculate dist
            { ps := sub, valid := true, speedUnits := speedUnits }).distance =
            pathSum dist sub := rfl
        simpa [hdist] using hbounds
    · rw [if_neg hcond]
      intro habs
      simp [emptyTrack] at habs

/-- With at most two points there is never a valid gate subtrack. -/
theorem turnGatePhase_invalid_short (dist : Point → Point → ℚ)
    (minDistance gateSize : ℚ) (firstSide : TackSide)
    (speedUnits : UnitsFlag) (t3 : Track) (hlen : t3.ps.length ≤ 2) :
    (turnGatePhase dist minDistance gateSize firstSide speedUnits
      t3).2.valid = false := by
  unfold turnGatePhase
  rcases hps : t3.ps with _ | ⟨a, _ | ⟨b, _ | ⟨c, rest⟩⟩⟩
  · rfl
  · rw [show ([a] : List Point).getLast? = some a from rfl]
    dsimp only
    by_cases hcond : a.tackSide ≠ TackSide.unknown ∧
        a.tackSide ≠ firstSide
    · rw [if_pos hcond]
      rfl
    · rw [if_neg hcond]
      rfl
  · rw [show ([a, b] : List Point).getLast? = some b from rfl]
    dsimp only
    by_cases hcond : b.tackSide ≠ TackSide.unknown ∧
        b.tackSide ≠ firstSide
    · rw [if_pos hcond]
      rfl
    · rw [if_neg hcond]
      rfl
  · rw [hps] at hlen
    simp at hlen

/-- Everything `addPointTurnMaxDistance` does after appending the new
point, on the Alpha-500 parameters: the updated track keeps the exact
running distance and known sides, and any valid subtrack has distance
in `[10, 500]`. -/
theorem turnStepAfterAppend (dist : Point → Point → ℚ)
    (hd : ∀ p q, 0 ≤ dist p q) (firstSide : TackSide)
    (speedUnits : UnitsFlag) (t1 : Track)
    (h1 : t1.distance = pathSum dist t1.ps)
    (hside : ∀ q ∈ t1.ps, q.tackSide ≠ TackSide.unknown)
    (hlen : 2 ≤ t1.ps.length) :
    ((turnGatePhase dist 10 50 firstSide speedUnits
        (dropUnknownTail (if t1.distance > 500 ∧ t1.ps.length > 2 then
          popFront dist (shrinkTurn dist 500 t1) else t1))).1.distance =
        pathSum dist (turnGatePhase dist 10 50 firstSide speedUnits
          (dropUnknownTail (if t1.distance > 500 ∧ t1.ps.length > 2 then
            popFront dist (shrinkTurn dist 500 t1) else t1))).1.ps ∧
      (∀ q ∈ (turnGatePhase dist 10 50 firstSide speedUnits
          (dropUnknownTail (if t1.distance > 500 ∧ t1.ps.length > 2 then
            popFront dist (shrinkTurn dist 500 t1) else t1))).1.ps,
        q.tackSide ≠ TackSide.unknown)) ∧
    ((turnGatePhase dist 10 50 firstSide speedUnits
        (dropUnknownTail (if t1.distance > 500 ∧ t1.ps.length > 2 then
          popFront dist (shrinkTurn dist 500 t1) else t1))).2.valid = true →
      10 ≤ (turnGatePhase dist 10 50 firstSide speedUnits
          (dropUnknownTail (if t1.distance > 500 ∧ t1.ps.length > 2 then
            popFront dist (shrinkTurn dist 500 t1) else t1))).2.distance ∧
        (turnGatePhase dist 10 50 firstSide speedUnits
          (dropUnknownTail (if t1.distance > 500 ∧ t1.ps.length > 2 then
            popFront dist (shrinkTurn dist 500 t1) else t1))).2.distance ≤
          500) := by
  have hfirst : ∀ (t4 : Track),
      (turnGatePhase dist 10 50 firstSide speedUnits t4).1 = t4 := by
    intro t4
    unfold turnGatePhase
    rcases t4.ps.getLast? with _ | lastP
    · rfl
    · dsimp only
      by_cases hcond : lastP.tackSide ≠ TackSide.unknown ∧
          lastP.tackSide ≠ firstSide
      · rw [if_pos hcond]
        rcases hscan : gateScan dist 10 50 firstSide t4.distance t4.ps with
          _ | sub
        · rfl
        · rfl
      · rw [if_neg hcond]
  by_cases hbig : t1.distance > 500 ∧ t1.ps.length > 2
  · rw [if_pos hbig]
    rcases step1_bound dist 500 (by norm_num) t1 h1 hside hlen with
      ⟨ha, hb, hc⟩
    have ht3 : dropUnknownTail (popFront dist (shrinkTurn dist 500 t1)) =
        popFront dist (shrinkTurn dist 500 t1) := by
      unfold dropUnknownTail
      rw [dropUnknownTailGo_id _ _ hb]
    rw [ht3]
    constructor
    · rw [hfirst]
      exact ⟨ha, hb⟩
    · exact turnGatePhase_bounds dist hd 10 50 500 firstSide speedUnits
        _ ha hc
  · rw [if_neg hbig]
    have ht3 : dropUnknownTail t1 = t1 := by
      unfold dropUnknownTail
      rw [dropUnknownTailGo_id _ _ hside]
    rw [ht3]
    refine ⟨?_, ?_⟩
    · rw [hfirst]
      exact ⟨h1, hside⟩
    · rcases not_and_or.mp hbig with hsmall | hshort
      · exact turnGatePhase_bounds dist hd 10 50 500 firstSide speedUnits
          t1 h1 (not_lt.mp hsmall)
      · intro habs
        rw [turnGatePhase_invalid_short dist 10 50 firstSide speedUnits t1
          (by omega)] at habs
        exact absurd habs Bool.false_ne_true

/-- One `addPointTurn500` call: the carried track keeps the exact
running distance and known sides, and a valid returned subtrack has
distance in `[10, 500]`. -/
theorem addPointTurn500_inv (dist : Point → Point → ℚ)
    (hd : ∀ p q, 0 ≤ dist p q) (t : Track) (p : Point)
    (h1 : t.distance = pathSum dist t.ps)
    (hside : ∀ q ∈ t.ps, q.tackSide ≠ TackSide.unknown)
    (hp : p.tackSide ≠ TackSide.unknown) :
    ((addPointTurn500 dist t p).1.distance =
        pathSum dist (addPointTurn500 dist t p).1.ps ∧
      ∀ q ∈ (addPointTurn500 dist t p).1.ps,
        q.tackSide ≠ TackSide.unknown) ∧
    ((addPointTurn500 dist t p).2.valid = true →
      10 ≤ (addPointTurn500 dist t p).2.distance ∧
        (addPointTurn500 dist t p).2.distance ≤ 500) := by
  unfold addPointTurn500 addPointTurnMaxDistance
  rcases hps : t.ps with _ | ⟨first, restPs⟩
  · rw [hps] at h1
    dsimp only
    by_cases hh : p.heading < 0
    · rw [if_pos hh]
      refine ⟨⟨?_, hside⟩, ?_⟩
      · rw [hps]
        exact h1
      · intro habs
        simp [emptyTrack] at habs
    · rw [if_neg hh]
      refine ⟨⟨?_, ?_⟩, ?_⟩
      · show t.distance = pathSum dist [p]
        rw [h1]
        rfl
      · intro q hq
        rcases List.mem_singleton.mp hq with rfl
        exact hp
      · intro habs
        simp [emptyTrack] at habs
  · rw [hps] at h1 hside
    exact turnStepAfterAppend dist hd first.tackSide t.speedUnits
      { t with
        ps := (first :: restPs) ++ [p]
        duration := t.duration +
          (p.ts - (List.getLast (first :: restPs) (by simp)).ts)
        distance := t.distance +
          dist (List.getLast (first :: restPs) (by simp)) p }
      (by
        simp only
        rw [h1, pathSum_concat dist (first :: restPs) (by simp) p])
      (by
        simp only
        intro q hq
        rcases List.mem_append.mp hq with hq' | hq'
        · exact hside q hq'
        · rcases List.mem_singleton.mp hq' with rfl
          exact hp)
      (by simp)

/-- Selecting between two tracks that both satisfy the valid-distance
bound preserves the bound. -/
theorem trackIte_bound {c : Prop} [Decidable c] (a b : Track)
    (ha : a.valid = true → 10 ≤ a.distance ∧ a.distance ≤ 500)
    (hb : b.valid = true → 10 ≤ b.distance ∧ b.distance ≤ 500) :
    (if c then a else b).valid = true →
      10 ≤ (if c then a else b).distance ∧
        (if c then a else b).distance ≤ 500 := by
  by_cases h : c
  · rw [if_pos h]
    exact ha
  · rw [if_neg h]
    exact hb

/-- The `findMaxTurnSubtrack` fold preserves the invariants of
`addPointTurn500_inv` across a list of known-side points. -/
theorem turnFold_inv (dist : Point → Point → ℚ)
    (hd : ∀ p q, 0 ≤ dist p q) (ps : List Point) :
    ∀ acc : Track × Track,
      (∀ p ∈ ps, p.tackSide ≠ TackSide.unknown) →
      acc.1.distance = pathSum dist acc.1.ps →
      (∀ q ∈ acc.1.ps, q.tackSide ≠ TackSide.unknown) →
      (acc.2.valid = true → 10 ≤ acc.2.distance ∧ acc.2.distance ≤ 500) →
      ((ps.foldl
          (fun acc p =>
            let step := addPointTurn500 dist acc.1 p
            (step.1,
              if step.2.valid ∧ step.2.speed > acc.2.speed then step.2
              else acc.2))
          acc).2.valid = true →
        10 ≤ (ps.foldl
            (fun acc p =>
              let step := addPointTurn500 dist acc.1 p
              (step.1,
                if step.2.valid ∧ step.2.speed > acc.2.speed then step.2
                else acc.2))
            acc).2.distance ∧
          (ps.foldl
            (fun acc p =>
              let step := addPointTurn500 dist acc.1 p
              (step.1,
                if step.2.valid ∧ step.2.speed > acc.2.speed then step.2
                else acc.2))
            acc).2.distance ≤ 500) := by
  induction ps with
  | nil =>
    intro acc _ _ _ h3
    exact h3
  | cons p rest ih =>
    intro acc hsides h1 h2 h3
    rw [List.foldl_cons]
    have hstep := addPointTurn500_inv dist hd acc.1 p h1 h2
      (hsides p (List.mem_cons_self p rest))
    exact ih _ (fun q hq => hsides q (List.mem_cons_of_mem p hq))
      hstep.1.1 hstep.1.2
      (trackIte_bound (addPointTurn500 dist acc.1 p).2 acc.2 hstep.2 h3)

/-- C1 (corrected): a subtrack returned as valid by the Alpha/Delta 500
turn engine (`findMaxTurnSubtrack` over `addPointTurn500`) on a track of
known tack sides has distance at least 10 m — not 100 m as the spec
states — and at most 500 m.  The known-side restriction is necessary:
on tracks with unknown-side points the carried distance drifts (step 2
truncates the tail without adjusting the sums) and even these bounds
fail — see the accompanying counterexamples. -/
theorem findMaxTurnSubtrack_distance_bounds (dist : Point → Point → ℚ)
    (hd : ∀ p q, 0 ≤ dist p q) (turnTrack : Track)
    (speedUnits : UnitsFlag)
    (hside : ∀ p ∈ turnTrack.ps, p.tackSide ≠ TackSide.unknown)
    (hv : (findMaxTurnSubtrack dist turnTrack speedUnits).valid = true) :
    10 ≤ (findMaxTurnSubtrack dist turnTrack speedUnits).distance ∧
      (findMaxTurnSubtrack dist turnTrack speedUnits).distance ≤ 500 := by
  unfold findMaxTurnSubtrack at hv ⊢
  refine turnFold_inv dist hd turnTrack.ps
    (emptyTrack speedUnits, emptyTrack speedUnits) hside rfl ?_ ?_ hv
  · intro q hq
    simp [emptyTrack] at hq
  · intro habs
    simp [emptyTrack] at habs

theorem findMaxTurnSubtrack_distance_bounds_witness :
    10 ≤ (findMaxTurnSubtrack distSimpleEquator alphaExampleTrack
        UnitsFlag.ms).distance ∧
      (findMaxTurnSubtrack distSimpleEquator alphaExampleTrack
        UnitsFlag.ms).distance ≤ 500 :=
  findMaxTurnSubtrack_distance_bounds distSimpleEquator
    (fun _ _ => abs_nonneg _) alphaExampleTrack UnitsFlag.ms
    (by decide) (by with_unfolding_all rfl)

/-- C1 counterexamples delimiting the claim.  First, the spec's 100 m
lower bound is wrong even on all-known-side input: on the 60 m
out-and-back turn `alphaExampleTrack` the engine returns a valid
subtrack of distance exactly 60 m (the code's `minDistance` is 10).
Second, the known-tack-side restriction of the corrected bound is
necessary: on `mixedSideExampleTrack`, which contains an unknown-side
point, step 2 of `addPointTurnMaxDistance` truncates the tail without
adjusting the running distance, the gate scan accepts against that
stale 10 m figure, and the engine returns a valid subtrack whose
recalculated distance is 2 m — below even the 10 m bound. -/
theorem findMaxTurnSubtrack_bounds_counterexamples :
    ((findMaxTurnSubtrack distSimpleEquator alphaExampleTrack
        UnitsFlag.ms).valid = true ∧
      (findMaxTurnSubtrack distSimpleEquator alphaExampleTrack
        UnitsFlag.ms).distance = 60 ∧
      ¬(100 ≤ (findMaxTurnSubtrack distSimpleEquator alphaExampleTrack
        UnitsFlag.ms).distance)) ∧
    ((findMaxTurnSubtrack distSimpleEquator mixedSideExampleTrack
        UnitsFlag.ms).valid = true ∧
      (findMaxTurnSubtrack distSimpleEquator mixedSideExampleTrack
        UnitsFlag.ms).distance = 2 ∧
      ¬(10 ≤ (findMaxTurnSubtrack distSimpleEquator mixedSideExampleTrack
        UnitsFlag.ms).distance)) := by
  refine ⟨⟨by with_unfolding_all rfl, by with_unfolding_all rfl, ?_⟩,
    ⟨by with_unfolding_all rfl, by with_unfolding_all rfl, ?_⟩⟩
  · rw [show (findMaxTurnSubtrack distSimpleEquator alphaExampleTrack
        UnitsFlag.ms).distance = 60 from by with_unfolding_all rfl]
    norm_num
  · rw [show (findMaxTurnSubtrack distSimpleEquator mixedSideExampleTrack
        UnitsFlag.ms).distance = 2 from by with_unfolding_all rfl]
    norm_num

/-- The window-shrink loop only removes points from the front: every
surviving point was already in the window. -/
theorem shrinkDurGo_subset (dist : Point → Point → ℚ) (m : ℚ) :
    ∀ (ps : List Point) (dur dst : ℚ) (q : Point),
      q ∈ (shrinkDurGo dist m ps dur dst).1 → q ∈ ps := by
  intro ps
  induction ps with
  | nil =>
    intro dur dst q hq
    exact hq
  | cons p0 ps' ih =>
    intro dur dst q hq
    rcases ps' with _ | ⟨p1, _ | ⟨p2, rest⟩⟩
    · exact hq
    · exact hq
    · rw [shrinkDurGo] at hq
      by_cases hc : dur - (p1.ts - p0.ts) ≥ m
      · rw [if_pos hc] at hq
        exact List.mem_cons_of_mem p0 (ih _ _ q hq)
      · rw [if_neg hc] at hq
        exact hq

/-- Selecting between two tracks whose points all satisfy `P` yields a
track whose points all satisfy `P`. -/
theorem trackIte_mem {c : Prop} [Decidable c] (a b : Track)
    (P : Point → Prop) (ha : ∀ q ∈ a.ps, P q) (hb : ∀ q ∈ b.ps, P q) :
    ∀ q ∈ (if c then a else b).ps, P q := by
  by_cases h : c
  · rw [if_pos h]
    exact ha
  · rw [if_neg h]
    exact hb

/-- One append through the unused-10s window operation: every point of
the result was already in the carried window or is the new point, and in
the latter case the new point was not yet used. -/
theorem addPointUnused10s_mem (dist : Point → Point → ℚ) (t : Track)
    (p : Point) (m : ℚ) :
    ∀ q ∈ (addPointMinDurationUnused10s dist t p m true).ps,
      q ∈ t.ps ∨ (q = p ∧ p.usedFor10s = false) := by
  intro q hq
  unfold addPointMinDurationUnused10s at hq
  split at hq
  · exact absurd hq (List.not_mem_nil q)
  · rename_i hcond
    have hpu : p.usedFor10s = false := by
      cases hb : p.usedFor10s
      · rfl
      · exact absurd ⟨rfl, hb⟩ hcond
    split at hq
    · right
      exact ⟨List.mem_singleton.mp hq, hpu⟩
    · dsimp only at hq
      split at hq
      · have hq' := shrinkDurGo_subset dist m _ _ _ q hq
        rcases List.mem_append.mp hq' with hl | hr
        · exact Or.inl hl
        · exact Or.inr ⟨List.mem_singleton.mp hr, hpu⟩
      · rcases List.mem_append.mp hq with hl | hr
        · exact Or.inl hl
        · exact Or.inr ⟨List.mem_singleton.mp hr, hpu⟩

/-- The inner scan fold keeps both the carried window and the best track
inside the scanned sequence, using only not-yet-used points. -/
theorem scanFold_mem (dist : Point → Point → ℚ) (ps0 : List Point) :
    ∀ (rest : List Point) (acc : Track × Track),
      (∀ r ∈ rest, r ∈ ps0) →
      (∀ q ∈ acc.1.ps, q ∈ ps0 ∧ q.usedFor10s = false) →
      (∀ q ∈ acc.2.ps, q ∈ ps0 ∧ q.usedFor10s = false) →
      ∀ q ∈ (rest.foldl
          (fun acc p =>
            let t := addPointMinDurationUnused10s dist acc.1 p 10 true
            (t, if t.valid ∧ acc.2.speed < t.speed then t else acc.2))
          acc).2.ps,
        q ∈ ps0 ∧ q.usedFor10s = false := by
  intro rest
  induction rest with
  | nil =>
    intro acc _ _ h2 q hq
    exact h2 q hq
  | cons p rs ih =>
    intro acc hrest h1 h2 q hq
    rw [List.foldl_cons] at hq
    have hnew : ∀ r ∈ (addPointMinDurationUnused10s dist acc.1 p 10
        true).ps, r ∈ ps0 ∧ r.usedFor10s = false := by
      intro r hr
      rcases addPointUnused10s_mem dist acc.1 p 10 r hr with hmem | ⟨rfl, hpu⟩
      · exact h1 r hmem
      · exact ⟨hrest r (List.mem_cons_self r rs), hpu⟩
    exact ih _ (fun r hr => hrest r (List.mem_cons_of_mem p hr)) hnew
      (trackIte_mem _ _ _ hnew h2) q hq

/-- Every point of the best 10-second window found by one scan is a
point of the scanned sequence that was not yet used. -/
theorem scan10s_mem (dist : Point → Point → ℚ) (u : UnitsFlag)
    (ps : List Point) :
    ∀ q ∈ (scan10s dist u ps).ps, q ∈ ps ∧ q.usedFor10s = false := by
  cases ps with
  | nil =>
    intro q hq
    exact absurd hq (List.not_mem_nil q)
  | cons p0 rest =>
    have h0 : ∀ q ∈ (addPointMinDurationUnused10s dist
        (emptyTrack u) p0 10 true).ps,
        q ∈ p0 :: rest ∧ q.usedFor10s = false := by
      intro r hr
      rcases addPointUnused10s_mem dist (emptyTrack u) p0 10 r hr with
        hmem | ⟨rfl, hpu⟩
      · exact absurd hmem (List.not_mem_nil r)
      · exact ⟨List.mem_cons_self r rest, hpu⟩
    exact scanFold_mem dist (p0 :: rest) rest _
      (fun r hr => List.mem_cons_of_mem p0 hr) h0
      (fun r hr => absurd hr (List.not_mem_nil r))

/-- One `usedFor10s` marking step: each position holds the original
point, or the original point with its flag set. -/
theorem set_flag_getD (l : List Point) (g i : ℕ) :
    ((l.set g { l.getD g default with usedFor10s := true }).getD i default =
        l.getD i default) ∨
      ((l.set g { l.getD g default with usedFor10s := true }).getD i
          default =
        { l.getD i default with usedFor10s := true }) := by
  by_cases hig : i = g
  · subst hig
    by_cases hlen : i < l.length
    · right
      rw [List.getD_eq_getElem?_getD, List.getElem?_set_self hlen]
      rfl
    · left
      rw [List.set_eq_of_length_le (Nat.le_of_not_lt hlen)]
  · left
    rw [List.getD_eq_getElem?_getD,
      List.getElem?_set_ne (fun h => hig h.symm),
      ← List.getD_eq_getElem?_getD]

/-- The marking fold of `markUsed` keeps the sequence length. -/
theorem markFold_length :
    ∀ (qs ps : List Point),
      (qs.foldl
        (fun acc p =>
          acc.set p.globalIdx
            { acc.getD p.globalIdx default with usedFor10s := true })
        ps).length = ps.length := by
  intro qs
  induction qs with
  | nil =>
    intro ps
    rfl
  | cons p rs ih =>
    intro ps
    rw [List.foldl_cons, ih, List.length_set]

/-- The marking fold of `markUsed` only flips `usedFor10s` flags: each
position holds the original point or its flagged copy. -/
theorem markFold_getD :
    ∀ (qs ps : List Point) (i : ℕ),
      ((qs.foldl
          (fun acc p =>
            acc.set p.globalIdx
              { acc.getD p.globalIdx default with usedFor10s := true })
          ps).getD i default = ps.getD i default) ∨
        ((qs.foldl
          (fun acc p =>
            acc.set p.globalIdx
              { acc.getD p.globalIdx default with usedFor10s := true })
          ps).getD i default =
          { ps.getD i default with usedFor10s := true }) := by
  intro qs
  induction qs with
  | nil =>
    intro ps i
    exact Or.inl rfl
  | cons p rs ih =>
    intro ps i
    rw [List.foldl_cons]
    rcases ih (ps.set p.globalIdx
        { ps.getD p.globalIdx default with usedFor10s := true }) i with
      h | h <;>
      rcases set_flag_getD ps p.globalIdx i with h1 | h1
    · exact Or.inl (h.trans h1)
    · exact Or.inr (h.trans h1)
    · exact Or.inr (by rw [h, h1])
    · exact Or.inr (by rw [h, h1])

/-- The marking fold of `markUsed` sets the flag at the `globalIdx` of
every marked point that indexes inside the sequence. -/
theorem markFold_marks :
    ∀ (qs ps : List Point) (p : Point), p ∈ qs →
      p.globalIdx < ps.length →
      (((qs.foldl
          (fun acc p =>
            acc.set p.globalIdx
              { acc.getD p.globalIdx default with usedFor10s := true })
          ps)).getD p.globalIdx default).usedFor10s = true := by
  intro qs
  induction qs with
  | nil =>
    intro ps p hp _
    exact absurd hp (List.not_mem_nil p)
  | cons p0 rs ih =>
    intro ps p hp hlen
    rw [List.foldl_cons]
    rcases List.mem_cons.mp hp with heq | hp'
    · rw [heq] at hlen ⊢
      have hset : ((ps.set p0.globalIdx
          { ps.getD p0.globalIdx default with usedFor10s := true }).getD
            p0.globalIdx default).usedFor10s = true := by
        rw [List.getD_eq_getElem?_getD, List.getElem?_set_self hlen]
        rfl
      rcases markFold_getD rs (ps.set p0.globalIdx
          { ps.getD p0.globalIdx default with usedFor10s := true })
          p0.globalIdx with h | h
      · rw [h]
        exact hset
      · rw [h]
    · exact ih _ p hp' (by rw [List.length_set]; exact hlen)

/-- `markUsedRun` keeps the sequence length. -/
theorem markUsedRun_length (ps : List Point) (t : Track) :
    (markUsedRun ps t).length = ps.length :=
  markFold_length t.ps ps

/-- `markUsedRun` leaves each position's point unchanged except
possibly for its `usedFor10s` flag. -/
theorem markUsedRun_flag (ps : List Point) (t : Track) (i : ℕ) :
    ((markUsedRun ps t).getD i default = ps.getD i default) ∨
      ((markUsedRun ps t).getD i default =
        { ps.getD i default with usedFor10s := true }) :=
  markFold_getD t.ps ps i

/-- `markUsedRun` sets the flag at the `globalIdx` of every point of
the picked track (when that index is in range). -/
theorem markUsedRun_marks (ps : List Point) (t : Track) (p : Point)
    (hp : p ∈ t.ps) (hlen : p.globalIdx < ps.length) :
    ((markUsedRun ps t).getD p.globalIdx default).usedFor10s = true :=
  markFold_marks t.ps ps p hp hlen

/-- When every marked `globalIdx` is in range, the guarded marking fold
never panics and agrees with the plain fold. -/
theorem markFold_some :
    ∀ (qs ps : List Point), (∀ p ∈ qs, p.globalIdx < ps.length) →
      (qs.foldl
        (fun acc p =>
          match acc with
          | none => none
          | some l =>
            if p.globalIdx < l.length then
              some (l.set p.globalIdx
                { l.getD p.globalIdx default with usedFor10s := true })
            else none)
        (some ps)) =
      some (qs.foldl
        (fun acc p =>
          acc.set p.globalIdx
            { acc.getD p.globalIdx default with usedFor10s := true })
        ps) := by
  intro qs
  induction qs with
  | nil =>
    intro ps _
    rfl
  | cons p rs ih =>
    intro ps h
    rw [List.foldl_cons, List.foldl_cons]
    dsimp only
    rw [if_pos (h p (List.mem_cons_self p rs))]
    exact ih _ (fun q hq => by
      rw [List.length_set]
      exact h q (List.mem_cons_of_mem p hq))

/-- When every `globalIdx` of the picked track is in range, `markUsed`
does not panic and returns the `markUsedRun` sequence. -/
theorem markUsed_some (ps : List Point) (t : Track)
    (h : ∀ p ∈ t.ps, p.globalIdx < ps.length) :
    markUsed ps t = some (markUsedRun ps t) :=
  markFold_some t.ps ps h

/-- On a consistently indexed sequence, every member sits at the
position named by its `globalIdx`. -/
theorem mem_getD_of_inv (ps : List Point)
    (hInv : ∀ i, i < ps.length → (ps.getD i default).globalIdx = i)
    (q : Point) (hq : q ∈ ps) :
    q.globalIdx < ps.length ∧ ps.getD q.globalIdx default = q := by
  rcases List.mem_iff_getElem.mp hq with ⟨i, hi, hEq⟩
  have hgd : ps.getD i default = q := by
    rw [List.getD_eq_getElem ps default hi]
    exact hEq
  have hq' : q.globalIdx = i := by
    rw [← hgd]
    exact hInv i hi
  rw [hq']
  exact ⟨hi, hgd⟩

/-- The outer pick-and-mark loop never panics and keeps all picked
tracks pairwise disjoint by `globalIdx`, given that the sequence is
consistently indexed and all previously picked points are already
flagged. -/
theorem pick5x10sGo_disjoint (dist : Point → Point → ℚ)
    (u : UnitsFlag) :
    ∀ (k : ℕ) (ps : List Point) (acc : List Track),
      (∀ i, i < ps.length → (ps.getD i default).globalIdx = i) →
      (∀ t ∈ acc, ∀ p ∈ t.ps, p.globalIdx < ps.length ∧
        (ps.getD p.globalIdx default).usedFor10s = true) →
      List.Pairwise
        (fun a b => ∀ p ∈ a.ps, ∀ q ∈ b.ps, p.globalIdx ≠ q.globalIdx)
        acc →
      ∃ r, pick5x10sGo dist u k ps acc = some r ∧
        List.Pairwise
          (fun a b => ∀ p ∈ a.ps, ∀ q ∈ b.ps, p.globalIdx ≠ q.globalIdx)
          r.1 := by
  intro k
  induction k with
  | zero =>
    intro ps acc _ _ hPw
    refine ⟨(acc.reverse, ps), rfl, ?_⟩
    exact List.pairwise_reverse.mpr
      (hPw.imp fun h p hp q hq heq => h q hq p hp heq.symm)
  | succ k ih =>
    intro ps acc hInv hMark hPw
    have hin : ∀ p ∈ (scan10s dist u ps).ps, p.globalIdx < ps.length := by
      intro p hp
      exact (mem_getD_of_inv ps hInv p
        (scan10s_mem dist u ps p hp).1).1
    have hInv' : ∀ i, i < (markUsedRun ps (scan10s dist u ps)).length →
        ((markUsedRun ps (scan10s dist u ps)).getD i default).globalIdx =
          i := by
      intro i hi
      have hi' : i < ps.length := by
        rw [markUsedRun_length] at hi
        exact hi
      rcases markUsedRun_flag ps (scan10s dist u ps) i with h | h
      · rw [h]
        exact hInv i hi'
      · rw [h]
        exact hInv i hi'
    have hMark' : ∀ t ∈ scan10s dist u ps :: acc, ∀ p ∈ t.ps,
        p.globalIdx < (markUsedRun ps (scan10s dist u ps)).length ∧
          ((markUsedRun ps (scan10s dist u ps)).getD p.globalIdx
            default).usedFor10s = true := by
      intro t ht p hp
      rcases List.mem_cons.mp ht with heq | ht'
      · rw [heq] at hp
        have hplt := hin p hp
        refine ⟨by rw [markUsedRun_length]; exact hplt, ?_⟩
        exact markUsedRun_marks ps (scan10s dist u ps) p hp hplt
      · rcases hMark t ht' p hp with ⟨hplt, hused⟩
        refine ⟨by rw [markUsedRun_length]; exact hplt, ?_⟩
        rcases markUsedRun_flag ps (scan10s dist u ps) p.globalIdx with
          h | h
        · rw [h]
          exact hused
        · rw [h]
    have hPw' : List.Pairwise
        (fun a b => ∀ p ∈ a.ps, ∀ q ∈ b.ps, p.globalIdx ≠ q.globalIdx)
        (scan10s dist u ps :: acc) := by
      refine List.pairwise_cons.mpr ⟨?_, hPw⟩
      intro t ht p hp q hq heq
      rcases scan10s_mem dist u ps p hp with ⟨hpin, hpu⟩
      rcases mem_getD_of_inv ps hInv p hpin with ⟨_, hpeq⟩
      have hmarked := (hMark t ht q hq).2
      rw [← heq, hpeq, hpu] at hmarked
      exact Bool.false_ne_true hmarked
    rcases ih (markUsedRun ps (scan10s dist u ps))
      (scan10s dist u ps :: acc) hInv' hMark' hPw' with ⟨r, hr, hpw⟩
    refine ⟨r, ?_, hpw⟩
    rw [pick5x10sGo]
    rw [markUsed_some ps (scan10s dist u ps) hin]
    exact hr

/-- C2 (corrected): on a consistently indexed point sequence (each
point's `globalIdx` names its own position, as the selector's marking
step assumes), the `5 x 10 secs` loop never panics and the five
10-second tracks it picks have pairwise disjoint point sets by
`globalIdx`: no `globalIdx` belongs to more than one of the five
tracks.  Real `CleanUp` outputs need not be consistently indexed (the
stage-B seed at position 1 keeps its raw index) and the conclusion
fails on them. -/
theorem speed5x10s_pairwise_disjoint (dist : Point → Point → ℚ)
    (speedUnits : UnitsFlag) (ps : List Point)
    (h1 : ∀ i, i < ps.length → (ps.getD i default).globalIdx = i) :
    ∃ l, pick5x10s dist speedUnits ps = some l ∧
      List.Pairwise
        (fun a b => ∀ p ∈ a.ps, ∀ q ∈ b.ps, p.globalIdx ≠ q.globalIdx)
        l := by
  rcases pick5x10sGo_disjoint dist speedUnits 5 ps [] h1
    (fun t ht => absurd ht (List.not_mem_nil t)) List.Pairwise.nil with
    ⟨r, hr, hpw⟩
  refine ⟨r.1, ?_, hpw⟩
  unfold pick5x10s
  rw [hr]
  rfl

theorem speed5x10s_pairwise_disjoint_witness :
    ∃ l, pick5x10s distSimpleEquator UnitsFlag.ms gapCleanedTwice =
        some l ∧
      List.Pairwise
        (fun a b => ∀ p ∈ a.ps, ∀ q ∈ b.ps, p.globalIdx ≠ q.globalIdx)
        l :=
  speed5x10s_pairwise_disjoint distSimpleEquator UnitsFlag.ms
    gapCleanedTwice (by decide)

set_option maxRecDepth 8000 in
/-- C2 counterexample on a real cleaned sequence: `CleanUp` maps
`overlapRawPoints` to `overlapCleanedPoints`, whose position-1 seed
keeps raw global index 3; on that output the selector's first two picks
both contain a point with global index 3 (the reassigned position-3
point and the seed), so the five tracks are not pairwise disjoint by
`globalIdx`. -/
theorem pick5x10s_overlapping_picks :
    CleanUp distSimpleEquator overlapRawPoints defaultDeltaSpeedMax
        UnitsFlag.ms = some overlapCleanedPoints ∧
    pick5x10s distSimpleEquator UnitsFlag.ms overlapCleanedPoints =
        some overlapPicks ∧
    ∃ p ∈ (overlapPicks.getD 0 (emptyTrack UnitsFlag.ms)).ps,
      ∃ q ∈ (overlapPicks.getD 1 (emptyTrack UnitsFlag.ms)).ps,
        p.globalIdx = q.globalIdx := by
  refine ⟨by with_unfolding_all rfl, by with_unfolding_all rfl,
    eqPoint 6 13 3 .unknown (-1), ?_, eqPoint 1 11 3 .unknown (-1),
    ?_, rfl⟩
  · exact List.mem_cons_of_mem _ (List.mem_cons_self _ _)
  · exact List.mem_cons_of_mem _ (List.mem_cons_self _ _)

end GpsStats
